import Mathlib

/-!
Shallow embedding of `src/address_book.py` (contact manager with a
birthday-window query), together with theorems settling the frozen claims
about its specification.

Python strings are modelled as `List Char` (Unicode code points).  The
character-class predicates below model the Python builtins (`str.strip`,
`str.isdigit`, the `\d` class of `re`, `int` on digit strings) restricted to
the Unicode ranges listed in their doc comments; characters outside those
ranges are treated as plain non-digit, non-space characters.
-/

namespace AddressBookPy

instance {ε α : Type} [DecidableEq ε] [DecidableEq α] : DecidableEq (Except ε α) :=
  fun x y =>
    match x, y with
    | .ok a, .ok b =>
      if h : a = b then isTrue (by rw [h])
      else isFalse (fun hh => h (Except.ok.inj hh))
    | .ok _, .error _ => isFalse (fun hh => Except.noConfusion hh)
    | .error _, .ok _ => isFalse (fun hh => Except.noConfusion hh)
    | .error d, .error e =>
      if h : d = e then isTrue (by rw [h])
      else isFalse (fun hh => h (Except.error.inj hh))

/-- Models Python's whitespace class used by `str.strip()` (restricted to the
ASCII whitespace code points: space, tab, newline, carriage return, vertical
tab, form feed). -/
def pyIsSpace (c : Char) : Bool :=
  c = ' ' || c = '\t' || c = '\n' || c = '\r' || c.toNat = 11 || c.toNat = 12

/-- Python `str.strip()`: drop the leading and trailing whitespace. -/
def pyStrip (s : List Char) : List Char :=
  ((s.dropWhile pyIsSpace).reverse.dropWhile pyIsSpace).reverse

/-- Models the Unicode decimal-digit class (general category `Nd`) together
with each digit's decimal value, as used by Python's `str.isdigit`, by `int()`
on digit strings and by the `\d` class of `re` patterns.  Restricted to the
ASCII, Arabic-Indic, Extended Arabic-Indic, Devanagari, Bengali and fullwidth
digit ranges. -/
def decDigitVal? (c : Char) : Option Nat :=
  if 48 ≤ c.toNat ∧ c.toNat ≤ 57 then some (c.toNat - 48)
  else if 1632 ≤ c.toNat ∧ c.toNat ≤ 1641 then some (c.toNat - 1632)
  else if 1776 ≤ c.toNat ∧ c.toNat ≤ 1785 then some (c.toNat - 1776)
  else if 2406 ≤ c.toNat ∧ c.toNat ≤ 2415 then some (c.toNat - 2406)
  else if 2534 ≤ c.toNat ∧ c.toNat ≤ 2543 then some (c.toNat - 2534)
  else if 65296 ≤ c.toNat ∧ c.toNat ≤ 65305 then some (c.toNat - 65296)
  else none

/-- Models Python's `str.isdigit` on a single character: true for decimal
digits (category `Nd`, see `decDigitVal?`) and for the characters with
Unicode property `Numeric_Type=Digit` in the modelled ranges (superscript and
subscript digits). -/
def pyIsDigitChar (c : Char) : Bool :=
  (decDigitVal? c).isSome ||
    c.toNat = 178 || c.toNat = 179 || c.toNat = 185 ||
    c.toNat = 8304 || (8308 ≤ c.toNat && c.toNat ≤ 8313) ||
    (8320 ≤ c.toNat && c.toNat ≤ 8329)

/-- Python `str.isdigit()` on a whole string: nonempty and all characters
digits. -/
def pyStrIsDigit (s : List Char) : Bool :=
  !s.isEmpty && s.all pyIsDigitChar

/-- An ASCII decimal digit `'0'..'9'` (the digit class the spec's words
"ASCII decimal digits" denote). -/
def specAsciiDigit (c : Char) : Bool :=
  decide ('0' ≤ c) && decide (c ≤ '9')

/- ### Dates (Python `datetime.date`) -/

/-- The proleptic Gregorian leap-year rule (`calendar.isleap`). -/
def isLeap (y : Nat) : Bool :=
  y % 4 = 0 && (y % 100 ≠ 0 || y % 400 = 0)

/-- Number of days in a month of a given year. -/
def daysInMonth (y m : Nat) : Nat :=
  if m = 2 then (if isLeap y then 29 else 28)
  else if m = 4 || m = 6 || m = 9 || m = 11 then 30
  else 31

/-- A Python `datetime.date` value (year, month, day). -/
structure PyDate where
  year : Nat
  month : Nat
  day : Nat
deriving DecidableEq, Repr

/-- The `datetime.date(y, m, d)` constructor succeeds exactly on these
arguments (`MINYEAR = 1`, `MAXYEAR = 9999`, day within the month). -/
def validYMD (y m d : Nat) : Bool :=
  1 ≤ y && y ≤ 9999 && 1 ≤ m && m ≤ 12 && 1 ≤ d && d ≤ daysInMonth y m

def PyDate.valid (dt : PyDate) : Bool :=
  validYMD dt.year dt.month dt.day

/-- Python date comparison `a <= b`: lexicographic on (year, month, day). -/
def dateLe (a b : PyDate) : Bool :=
  a.year < b.year ||
    (a.year = b.year &&
      (a.month < b.month || (a.month = b.month && a.day ≤ b.day)))

/-- The calendar successor of a date (used to model `+ timedelta(days=n)` for
small nonnegative `n`). -/
def nextDay (dt : PyDate) : PyDate :=
  if dt.day < daysInMonth dt.year dt.month then ⟨dt.year, dt.month, dt.day + 1⟩
  else if dt.month < 12 then ⟨dt.year, dt.month + 1, 1⟩
  else ⟨dt.year + 1, 1, 1⟩

/-- `dt + timedelta(days=n)` for `n ≥ 0`. -/
def addDays (n : Nat) (dt : PyDate) : PyDate :=
  Nat.iterate nextDay n dt

/-- Leap days occurring in years `1..n` (helper for `toOrdinal`). -/
def leapsBefore (n : Nat) : Nat :=
  n / 4 - n / 100 + n / 400

/-- Days in the months of year `y` strictly before month `m`. -/
def daysBeforeMonth (y m : Nat) : Nat :=
  (List.range (m - 1)).foldl (fun acc i => acc + daysInMonth y (i + 1)) 0

/-- Python `date.toordinal()`: day 1 is January 1 of year 1. -/
def toOrdinal (dt : PyDate) : Nat :=
  365 * (dt.year - 1) + leapsBefore (dt.year - 1) +
    daysBeforeMonth dt.year dt.month + dt.day

/-- Python `date.weekday()`: Monday is 0 .. Sunday is 6.  January 1 of year 1
(ordinal 1) is a Monday. -/
def weekday (dt : PyDate) : Nat :=
  (toOrdinal dt + 6) % 7

/- ### Decimal formatting (`strftime`) -/

def digitChar (n : Nat) : Char := Char.ofNat (48 + n)

/-- Two-digit zero-padded field (`%d`, `%m`). -/
def pad2 (n : Nat) : List Char := [digitChar (n / 10 % 10), digitChar (n % 10)]

/-- Four-digit zero-padded field (`%Y`). -/
def pad4 (n : Nat) : List Char :=
  [digitChar (n / 1000 % 10), digitChar (n / 100 % 10),
   digitChar (n / 10 % 10), digitChar (n % 10)]

/-- `strftime("%Y-%m-%d")` (the ISO form used for `congratulation_date`). -/
def formatISO (dt : PyDate) : List Char :=
  pad4 dt.year ++ '-' :: (pad2 dt.month ++ '-' :: pad2 dt.day)

/-- `strftime("%d.%m.%Y")` (the form `show_birthday` prints). -/
def formatDMY (dt : PyDate) : List Char :=
  pad2 dt.day ++ '.' :: (pad2 dt.month ++ '.' :: pad4 dt.year)

/- ### Validators (the `Phone` and `Birthday` value setters) -/

def phoneErrMsg : String := "Phone number must be 10 digits."

def dateErrMsg : String := "Invalid date format. Use DD.MM.YYYY"

/-- The `Phone.value` setter: trims, then requires `isdigit()` and length 10;
stores the trimmed string on success, raises the fixed message otherwise. -/
def Phone_value (raw : List Char) : Except String (List Char) :=
  if pyStrIsDigit (pyStrip raw) && (pyStrip raw).length = 10 then .ok (pyStrip raw)
  else .error phoneErrMsg

/-- The day field of `strptime`'s pattern for `%d`: the alternatives
`3[01] | [12]\d | 0[1-9] | [1-9]` tried in order (`\d` is any decimal
digit). -/
def takeDay : List Char → Option (Nat × List Char)
  | [] => none
  | c1 :: rest =>
    if c1 = '3' then
      match rest with
      | c2 :: rest2 =>
        if c2 = '0' || c2 = '1' then some (30 + (c2.toNat - 48), rest2)
        else some (3, rest)
      | [] => some (3, [])
    else if c1 = '1' || c1 = '2' then
      match rest with
      | c2 :: rest2 =>
        match decDigitVal? c2 with
        | some v => some (10 * (c1.toNat - 48) + v, rest2)
        | none => some (c1.toNat - 48, rest)
      | [] => some (c1.toNat - 48, [])
    else if c1 = '0' then
      match rest with
      | c2 :: rest2 =>
        if decide ('1' ≤ c2) && decide (c2 ≤ '9') then some (c2.toNat - 48, rest2)
        else none
      | [] => none
    else if decide ('4' ≤ c1) && decide (c1 ≤ '9') then some (c1.toNat - 48, rest)
    else none

/-- The month field of `strptime`'s pattern for `%m`: the alternatives
`1[0-2] | 0[1-9] | [1-9]` tried in order. -/
def takeMonth : List Char → Option (Nat × List Char)
  | [] => none
  | c1 :: rest =>
    if c1 = '1' then
      match rest with
      | c2 :: rest2 =>
        if c2 = '0' || c2 = '1' || c2 = '2' then some (10 + (c2.toNat - 48), rest2)
        else some (1, rest)
      | [] => some (1, [])
    else if c1 = '0' then
      match rest with
      | c2 :: rest2 =>
        if decide ('1' ≤ c2) && decide (c2 ≤ '9') then some (c2.toNat - 48, rest2)
        else none
      | [] => none
    else if decide ('2' ≤ c1) && decide (c1 ≤ '9') then some (c1.toNat - 48, rest)
    else none

/-- The year field of `strptime`'s pattern for `%Y`: exactly four decimal
digits (`\d\d\d\d`), converted by `int()`. -/
def takeYear : List Char → Option (Nat × List Char)
  | a :: b :: c :: d :: rest =>
    match decDigitVal? a, decDigitVal? b, decDigitVal? c, decDigitVal? d with
    | some va, some vb, some vc, some vd =>
      some (1000 * va + 100 * vb + 10 * vc + vd, rest)
    | _, _, _, _ => none
  | _ => none

/-- The literal `.` of the format string: the next character must be a
dot. -/
def expectDot : List Char → Option (List Char)
  | c :: r => if c = '.' then some r else none
  | [] => none

/-- `datetime.strptime(s, "%d.%m.%Y").date()`: match the whole string against
day `.` month `.` four-digit year (nothing may remain), then build the date
(which checks calendar validity and the year range `1..9999`); `none` is a
`ValueError`. -/
def strptimeDMY (s : List Char) : Option PyDate :=
  match takeDay s with
  | none => none
  | some (d, r1) =>
    match expectDot r1 with
    | none => none
    | some r2 =>
      match takeMonth r2 with
      | none => none
      | some (m, r3) =>
        match expectDot r3 with
        | none => none
        | some r4 =>
          match takeYear r4 with
          | some (y, []) => if validYMD y m d then some ⟨y, m, d⟩ else none
          | _ => none

/-- The `Birthday.value` setter: trims, parses with
`strptime(raw, "%d.%m.%Y")`, converts the `ValueError` into the fixed
message. -/
def Birthday_value (raw : List Char) : Except String PyDate :=
  match strptimeDMY (pyStrip raw) with
  | some dt => .ok dt
  | none => .error dateErrMsg

/- ### Records and their operations -/

/-- One contact: a name, the stored `Phone` values in list order, and an
optional parsed `Birthday`. -/
structure Record where
  name : List Char
  phones : List (List Char)
  birthday : Option PyDate
deriving DecidableEq, Repr

/-- `Record.find_phone`: first stored phone whose value equals the raw
argument (no trimming of the argument). -/
def Record.find_phone (r : Record) (phone : List Char) : Option (List Char) :=
  r.phones.find? (fun p => decide (p = phone))

/-- `Record.add_phone`: validate, then append; a validation error leaves the
record untouched. -/
def Record.add_phone (r : Record) (phone : List Char) :
    Except String (Record × List Char) :=
  match Phone_value phone with
  | .error e => .error e
  | .ok v => .ok ({ r with phones := r.phones ++ [v] }, v)

/-- `Record.remove_phone`: remove the first phone equal to the argument,
report whether one was found. -/
def Record.remove_phone (r : Record) (phone : List Char) : Record × Bool :=
  match r.find_phone phone with
  | none => (r, false)
  | some v => ({ r with phones := r.phones.erase v }, true)

/-- `Record.edit_phone`: locate the first phone equal to `old` (`false` if
absent), then run the `Phone.value` setter on `new_` — the setter validates
before assigning, so a validation failure propagates with the list
unchanged; on success the located element is replaced in place. -/
def Record.edit_phone (r : Record) (old new_ : List Char) :
    Except String (Record × Bool) :=
  match r.phones.findIdx? (fun p => decide (p = old)) with
  | none => .ok (r, false)
  | some i =>
    match Phone_value new_ with
    | .error e => .error e
    | .ok v => .ok ({ r with phones := r.phones.set i v }, true)

/-- `Record.add_birthday`: validate and replace the stored birthday. -/
def Record.add_birthday (r : Record) (birthday : List Char) :
    Except String (Record × PyDate) :=
  match Birthday_value birthday with
  | .error e => .error e
  | .ok dt => .ok ({ r with birthday := some dt }, dt)

/-- The public mutating `Record` operations. -/
inductive RecOp
  | addPhone (raw : List Char)
  | removePhone (raw : List Char)
  | editPhone (old new_ : List Char)
  | setBirthday (raw : List Char)

/-- Run one public operation; a raised `ValidationError` propagates to the
caller with the record in its pre-call state (the setters validate before
they assign). -/
def Record.applyOp (r : Record) (op : RecOp) : Record :=
  match op with
  | .addPhone raw =>
    match r.add_phone raw with
    | .ok (r2, _) => r2
    | .error _ => r
  | .removePhone raw => (r.remove_phone raw).1
  | .editPhone o n =>
    match r.edit_phone o n with
    | .ok (r2, _) => r2
    | .error _ => r
  | .setBirthday raw =>
    match r.add_birthday raw with
    | .ok (r2, _) => r2
    | .error _ => r

/-- A record created by `Record(name)`. -/
def Record.new (name : List Char) : Record := ⟨name, [], none⟩

/- ### The upcoming-birthdays query -/

/-- One emitted element `{"name": ..., "congratulation_date": ...}`. -/
structure Entry where
  name : List Char
  congratulation_date : List Char
deriving DecidableEq, Repr

/-- Lines 114-122: the this-year anniversary; `none` is the `continue`
branch (an invalid month/day other than Feb 29). -/
def bdayThisYear (today bday : PyDate) : Option PyDate :=
  if validYMD today.year bday.month bday.day then
    some ⟨today.year, bday.month, bday.day⟩
  else if bday.month = 2 && bday.day = 29 then some ⟨today.year, 2, 28⟩
  else none

/-- Line 124: the candidate date; the roll-forward constructor
`date(year + 1, month, day if not (month == 2 and day == 29) else 28)` is not
inside a `try`, so its `ValueError` propagates (the `.error` case). -/
def candidate? (today bday : PyDate) : Except String (Option PyDate) :=
  match bdayThisYear today bday with
  | none => .ok none
  | some bty =>
    if dateLe today bty then .ok (some bty)
    else
      let d := if bday.month = 2 && bday.day = 29 then 28 else bday.day
      if validYMD (today.year + 1) bday.month d then
        .ok (some ⟨today.year + 1, bday.month, d⟩)
      else .error "ValueError"

/-- Lines 128-131: Saturday moves two days, Sunday one day. -/
def weekendShift (c : PyDate) : PyDate :=
  if weekday c = 5 then addDays 2 c
  else if weekday c = 6 then addDays 1 c
  else c

/-- Lines 109-136, one loop iteration: the entry a record contributes, if
any. -/
def recordEntry? (today end_date : PyDate) (r : Record) :
    Except String (Option Entry) :=
  match r.birthday with
  | none => .ok none
  | some b =>
    match candidate? today b with
    | .error e => .error e
    | .ok none => .ok none
    | .ok (some c) =>
      if dateLe today c && dateLe c end_date then
        .ok (some ⟨r.name, formatISO (weekendShift c)⟩)
      else .ok none

/-- The loop of lines 109-136 over the records in iteration order. -/
def collectEntries (today end_date : PyDate) :
    List Record → Except String (List Entry)
  | [] => .ok []
  | r :: rs =>
    match recordEntry? today end_date r with
    | .error e => .error e
    | .ok none => collectEntries today end_date rs
    | .ok (some e) =>
      match collectEntries today end_date rs with
      | .error msg => .error msg
      | .ok es => .ok (e :: es)

/-- Strict lexicographic order on strings by code point (Python `<`). -/
def strLtB : List Char → List Char → Bool
  | [], [] => false
  | [], _ :: _ => true
  | _ :: _, [] => false
  | a :: as, b :: bs => decide (a < b) || (decide (a = b) && strLtB as bs)

/-- Lexicographic order-or-equal on strings by code point (Python `<=`). -/
def strLeB : List Char → List Char → Bool
  | [], _ => true
  | _ :: _, [] => false
  | a :: as, b :: bs => decide (a < b) || (decide (a = b) && strLeB as bs)

/-- The sort key of line 138: tuple comparison on
`(congratulation_date, name)`. -/
def entryLe (x y : Entry) : Prop :=
  strLtB x.congratulation_date y.congratulation_date = true ∨
    (x.congratulation_date = y.congratulation_date ∧
      strLeB x.name y.name = true)

instance : DecidableRel entryLe := fun x y => by
  unfold entryLe; infer_instance

/-- Line 138: `upcoming.sort(key=lambda x: (x["congratulation_date"],
x["name"]))` — a stable ascending sort by the tuple key. -/
def sortEntries (l : List Entry) : List Entry :=
  List.insertionSort entryLe l

/-- `AddressBook.get_upcoming_birthdays`, with the ambient `date.today()`
passed explicitly; the book is `self.data.values()` in insertion order. -/
def get_upcoming_birthdays (book : List Record) (today : PyDate) :
    Except String (List Entry) :=
  match collectEntries today (addDays 7 today) book with
  | .error e => .error e
  | .ok es => .ok (sortEntries es)

/-! ### Spec-side definitions (worded from the specification, for
comparison with the code-side functions above) -/

/-- The this-year candidate as the spec words it: `(today.year, bm, bd)`,
with Feb 28 substituted when the birthday is Feb 29 and `today.year` is not
a leap year. -/
def specThisYear (today bday : PyDate) : PyDate :=
  if bday.month = 2 ∧ bday.day = 29 ∧ isLeap today.year = false then
    ⟨today.year, 2, 28⟩
  else ⟨today.year, bday.month, bday.day⟩

/-- A string strictly matching `DD.MM.YYYY` — 2-digit ASCII day, 2-digit
ASCII month, 4-digit ASCII year — that denotes a real calendar date, with
its value (this is the pattern the original claim asserts to be the exact
domain of acceptance). -/
def specStrictDMY : List Char → Option PyDate
  | [d1, d2, dot1, m1, m2, dot2, y1, y2, y3, y4] =>
    if dot1 = '.' && dot2 = '.' && specAsciiDigit d1 && specAsciiDigit d2 &&
        specAsciiDigit m1 && specAsciiDigit m2 && specAsciiDigit y1 &&
        specAsciiDigit y2 && specAsciiDigit y3 && specAsciiDigit y4 then
      if validYMD
          (1000 * (y1.toNat - 48) + 100 * (y2.toNat - 48) +
            10 * (y3.toNat - 48) + (y4.toNat - 48))
          (10 * (m1.toNat - 48) + (m2.toNat - 48))
          (10 * (d1.toNat - 48) + (d2.toNat - 48)) then
        some ⟨1000 * (y1.toNat - 48) + 100 * (y2.toNat - 48) +
            10 * (y3.toNat - 48) + (y4.toNat - 48),
          10 * (m1.toNat - 48) + (m2.toNat - 48),
          10 * (d1.toNat - 48) + (d2.toNat - 48)⟩
      else none
    else none
  | _ => none

/-- The day field of the amended pattern, described by its alternatives:
a single ASCII digit `1..9`, or `0` followed by an ASCII digit `1..9`, or
`1`/`2` followed by any decimal digit, or `3` followed by `0`/`1`. -/
def dayVal? : List Char → Option Nat
  | [c] =>
    if decide ('1' ≤ c) && decide (c ≤ '9') then some (c.toNat - 48) else none
  | [c1, c2] =>
    if c1 = '0' then
      if decide ('1' ≤ c2) && decide (c2 ≤ '9') then some (c2.toNat - 48)
      else none
    else if c1 = '1' || c1 = '2' then
      match decDigitVal? c2 with
      | some v => some (10 * (c1.toNat - 48) + v)
      | none => none
    else if c1 = '3' then
      if c2 = '0' || c2 = '1' then some (30 + (c2.toNat - 48)) else none
    else none
  | _ => none

/-- The month field of the amended pattern: a single ASCII digit `1..9`, or
`0` followed by an ASCII digit `1..9`, or `1` followed by `0`/`1`/`2`. -/
def monthVal? : List Char → Option Nat
  | [c] =>
    if decide ('1' ≤ c) && decide (c ≤ '9') then some (c.toNat - 48) else none
  | [c1, c2] =>
    if c1 = '0' then
      if decide ('1' ≤ c2) && decide (c2 ≤ '9') then some (c2.toNat - 48)
      else none
    else if c1 = '1' then
      if c2 = '0' || c2 = '1' || c2 = '2' then some (10 + (c2.toNat - 48))
      else none
    else none
  | _ => none

/-- The year field of the amended pattern: exactly four decimal digits. -/
def yearVal? : List Char → Option Nat
  | [a, b, c, d] =>
    match decDigitVal? a, decDigitVal? b, decDigitVal? c, decDigitVal? d with
    | some va, some vb, some vc, some vd =>
      some (1000 * va + 100 * vb + 10 * vc + vd)
    | _, _, _, _ => none
  | _ => none

/-! ### Helper lemmas: characters, trimming, the phone invariant -/

/-- The stored-phone invariant: exactly the check of the `Phone.value`
setter. -/
def phoneOk (v : List Char) : Bool :=
  pyStrIsDigit v && v.length = 10

lemma char_eq_of_toNat {a b : Char} (h : a.toNat = b.toNat) : a = b := by
  apply Char.ext
  apply UInt32.ext
  exact h

lemma digitChar_toNat {k : Nat} (h : k < 10) : (digitChar k).toNat = 48 + k := by
  interval_cases k <;> decide

lemma pyIsSpace_le {c : Char} (h : pyIsSpace c = true) : c.toNat ≤ 32 := by
  simp only [pyIsSpace, Bool.or_eq_true, decide_eq_true_eq] at h
  rcases h with ((((h | h) | h) | h) | h) | h
  · subst h; decide
  · subst h; decide
  · subst h; decide
  · subst h; decide
  · omega
  · omega

lemma pyIsDigitChar_ge {c : Char} (h : pyIsDigitChar c = true) : 48 ≤ c.toNat := by
  by_cases h48 : 48 ≤ c.toNat
  · exact h48
  · exfalso
    unfold pyIsDigitChar decDigitVal? at h
    have c1 : ¬ (48 ≤ c.toNat ∧ c.toNat ≤ 57) := fun hc => h48 hc.1
    have c2 : ¬ (1632 ≤ c.toNat ∧ c.toNat ≤ 1641) := fun hc => h48 (by omega)
    have c3 : ¬ (1776 ≤ c.toNat ∧ c.toNat ≤ 1785) := fun hc => h48 (by omega)
    have c4 : ¬ (2406 ≤ c.toNat ∧ c.toNat ≤ 2415) := fun hc => h48 (by omega)
    have c5 : ¬ (2534 ≤ c.toNat ∧ c.toNat ≤ 2543) := fun hc => h48 (by omega)
    have c6 : ¬ (65296 ≤ c.toNat ∧ c.toNat ≤ 65305) := fun hc => h48 (by omega)
    rw [if_neg c1, if_neg c2, if_neg c3, if_neg c4, if_neg c5, if_neg c6] at h
    simp only [Option.isSome_none, Bool.false_or, Bool.or_eq_true,
      decide_eq_true_eq, Bool.and_eq_true] at h
    omega

lemma digit_not_space {c : Char} (h : pyIsDigitChar c = true) :
    pyIsSpace c = false := by
  cases hs : pyIsSpace c
  · rfl
  · exact absurd (pyIsSpace_le hs) (by have := pyIsDigitChar_ge h; omega)

lemma dropWhile_eq_self_of {p : Char → Bool} {l : List Char}
    (h : ∀ c ∈ l, p c = false) : l.dropWhile p = l := by
  cases l with
  | nil => rfl
  | cons a l => simp [List.dropWhile, h a (List.mem_cons_self a l)]

lemma pyStrip_eq_self {l : List Char} (h : ∀ c ∈ l, pyIsSpace c = false) :
    pyStrip l = l := by
  unfold pyStrip
  rw [dropWhile_eq_self_of h,
    dropWhile_eq_self_of (fun c hc => h c (List.mem_reverse.mp hc)),
    List.reverse_reverse]

lemma phoneOk_length {v : List Char} (h : phoneOk v = true) : v.length = 10 := by
  simp only [phoneOk, Bool.and_eq_true, decide_eq_true_eq] at h
  exact h.2

lemma phoneOk_digits {v : List Char} (h : phoneOk v = true) :
    ∀ c ∈ v, pyIsDigitChar c = true := by
  simp only [phoneOk, pyStrIsDigit, Bool.and_eq_true, List.all_eq_true] at h
  exact h.1.2

lemma phoneOk_strip {v : List Char} (h : phoneOk v = true) : pyStrip v = v :=
  pyStrip_eq_self (fun c hc => digit_not_space (phoneOk_digits h c hc))

lemma Phone_value_ok_iff {raw v : List Char} :
    Phone_value raw = .ok v ↔ phoneOk (pyStrip raw) = true ∧ v = pyStrip raw := by
  unfold Phone_value phoneOk
  by_cases hc : (pyStrIsDigit (pyStrip raw) && decide ((pyStrip raw).length = 10)) = true
  · rw [if_pos hc]
    exact ⟨fun h => ⟨hc, (Except.ok.inj h).symm⟩, fun ⟨_, hv⟩ => by rw [hv]⟩
  · rw [if_neg hc]
    exact ⟨fun h => Except.noConfusion h, fun ⟨h1, _⟩ => absurd h1 hc⟩

lemma Phone_value_error_iff {raw : List Char} {e : String} :
    Phone_value raw = .error e ↔ phoneOk (pyStrip raw) = false ∧ e = phoneErrMsg := by
  unfold Phone_value phoneOk
  by_cases hc : (pyStrIsDigit (pyStrip raw) && decide ((pyStrip raw).length = 10)) = true
  · rw [if_pos hc]
    constructor
    · intro h; exact Except.noConfusion h
    · rintro ⟨h1, -⟩
      rw [h1] at hc
      exact absurd hc (by simp)
  · rw [if_neg hc]
    constructor
    · intro h
      exact ⟨Bool.not_eq_true _ |>.mp hc, (Except.error.inj h).symm⟩
    · rintro ⟨-, he⟩
      rw [he]

/-! ### Helper lemmas: calendar validity and the candidate computation -/

lemma daysInMonth_ne2 {m : Nat} (h : ¬ m = 2) (y y' : Nat) :
    daysInMonth y m = daysInMonth y' m := by
  simp [daysInMonth, h]

lemma daysInMonth_feb (y : Nat) :
    daysInMonth y 2 = if isLeap y then 29 else 28 := by
  simp [daysInMonth]

lemma daysInMonth_ge28 (y m : Nat) : 28 ≤ daysInMonth y m := by
  unfold daysInMonth
  split
  · split <;> omega
  · split <;> omega

lemma valid_fields {d : PyDate} (h : d.valid = true) :
    1 ≤ d.year ∧ d.year ≤ 9999 ∧ 1 ≤ d.month ∧ d.month ≤ 12 ∧
      1 ≤ d.day ∧ d.day ≤ daysInMonth d.year d.month := by
  simpa only [PyDate.valid, validYMD, Bool.and_eq_true, decide_eq_true_eq,
    and_assoc] using h

lemma validYMD_iff_of_valid {b : PyDate} (hb : b.valid = true) {y : Nat}
    (hy1 : 1 ≤ y) (hy2 : y ≤ 9999) :
    validYMD y b.month b.day = true ↔
      ¬ (b.month = 2 ∧ b.day = 29 ∧ isLeap y = false) := by
  obtain ⟨-, -, hm1, hm2, hd1, hd2⟩ := valid_fields hb
  simp only [validYMD, Bool.and_eq_true, decide_eq_true_eq, and_assoc]
  by_cases hm : b.month = 2
  · rw [hm] at hd2 ⊢
    rw [daysInMonth_feb] at hd2
    rw [daysInMonth_feb]
    cases hly : isLeap y <;> cases hlb : isLeap b.year <;>
      rw [hlb] at hd2 <;> simp_all <;> omega
  · rw [daysInMonth_ne2 hm y b.year]
    simp only [hm, false_and, not_false_eq_true, iff_true]
    omega

lemma validYMD_roll {b : PyDate} (hb : b.valid = true) {y : Nat}
    (hy1 : 1 ≤ y) (hy2 : y + 1 ≤ 9999) :
    validYMD (y + 1) b.month
      (if b.month = 2 && b.day = 29 then 28 else b.day) = true := by
  obtain ⟨-, -, hm1, hm2, hd1, hd2⟩ := valid_fields hb
  cases hc : (decide (b.month = 2) && decide (b.day = 29)) with
  | true =>
    simp only [Bool.and_eq_true, decide_eq_true_eq] at hc
    obtain ⟨hm, hd⟩ := hc
    rw [if_pos (by simp [hm, hd]), hm]
    simp only [validYMD, Bool.and_eq_true, decide_eq_true_eq]
    have h28 := daysInMonth_ge28 (y + 1) 2
    exact ⟨⟨⟨⟨⟨by omega, by omega⟩, by omega⟩, by omega⟩, by omega⟩, by omega⟩
  | false =>
    rw [if_neg (by simp [hc])]
    simp only [validYMD, Bool.and_eq_true, decide_eq_true_eq]
    have hnot : ¬ (b.month = 2 ∧ b.day = 29) := by
      intro hand
      simp [hand.1, hand.2] at hc
    by_cases hm : b.month = 2
    · have hd29 : b.day ≠ 29 := fun hd => hnot ⟨hm, hd⟩
      rw [hm] at hd2 ⊢
      rw [daysInMonth_feb] at hd2
      rw [daysInMonth_feb]
      have h28 : b.day ≤ 28 := by
        rcases hlb : isLeap b.year with _ | _ <;> rw [hlb] at hd2 <;> simp at hd2 <;>
          omega
      refine ⟨⟨⟨⟨⟨by omega, by omega⟩, by omega⟩, by omega⟩, by omega⟩, ?_⟩
      split <;> omega
    · rw [daysInMonth_ne2 hm (y + 1) b.year]
      refine ⟨⟨⟨⟨⟨by omega, by omega⟩, by omega⟩, by omega⟩, by omega⟩, by omega⟩

lemma bdayThisYear_eq_spec {today b : PyDate} (ht : today.valid = true)
    (hb : b.valid = true) :
    bdayThisYear today b = some (specThisYear today b) := by
  obtain ⟨hy1, hy2, -⟩ := valid_fields ht
  unfold bdayThisYear specThisYear
  by_cases hv : validYMD today.year b.month b.day = true
  · rw [if_pos hv, if_neg ((validYMD_iff_of_valid hb hy1 hy2).mp hv)]
  · have hP : b.month = 2 ∧ b.day = 29 ∧ isLeap today.year = false := by
      by_contra hP
      exact hv ((validYMD_iff_of_valid hb hy1 hy2).mpr hP)
    rw [if_neg hv, if_pos (by simp [hP.1, hP.2.1]), if_pos hP]

lemma candidate?_ok {today b : PyDate} (ht : today.valid = true)
    (hy : today.year + 1 ≤ 9999) (hb : b.valid = true) :
    candidate? today b =
      .ok (some (if dateLe today (specThisYear today b) = true then
        specThisYear today b
      else ⟨today.year + 1, b.month,
        if b.month = 2 && b.day = 29 then 28 else b.day⟩)) := by
  obtain ⟨hy1, -⟩ := valid_fields ht
  unfold candidate?
  rw [bdayThisYear_eq_spec ht hb]
  by_cases hle : dateLe today (specThisYear today b) = true
  · simp only [hle, if_pos]
  · simp only [Bool.not_eq_true] at hle
    simp only [hle, Bool.false_eq_true, if_false]
    rw [if_pos (validYMD_roll hb hy1 hy)]

lemma recordEntry?_ok_some_iff {today e_d : PyDate} {r : Record} {e : Entry} :
    recordEntry? today e_d r = .ok (some e) ↔
      ∃ b c, r.birthday = some b ∧ candidate? today b = .ok (some c) ∧
        dateLe today c = true ∧ dateLe c e_d = true ∧
        e = ⟨r.name, formatISO (weekendShift c)⟩ := by
  constructor
  · intro h
    unfold recordEntry? at h
    cases hbd : r.birthday with
    | none =>
      rw [hbd] at h
      exact absurd (Except.ok.inj h) (by simp)
    | some b =>
      rw [hbd] at h
      dsimp only at h
      cases hc : candidate? today b with
      | error msg =>
        rw [hc] at h
        exact Except.noConfusion h
      | ok oc =>
        rw [hc] at h
        cases oc with
        | none => exact absurd (Except.ok.inj h) (by simp)
        | some c =>
          dsimp only at h
          by_cases hw : (dateLe today c && dateLe c e_d) = true
          · rw [if_pos hw] at h
            obtain ⟨hw1, hw2⟩ := Bool.and_eq_true _ _ |>.mp hw
            exact ⟨b, c, rfl, hc, hw1, hw2, (Option.some.inj (Except.ok.inj h)).symm⟩
          · rw [if_neg hw] at h
            exact absurd (Except.ok.inj h) (by simp)
  · rintro ⟨b, c, hbd, hc, hw1, hw2, rfl⟩
    unfold recordEntry?
    rw [hbd]
    dsimp only
    rw [hc]
    dsimp only
    rw [if_pos (by rw [hw1, hw2]; rfl)]

lemma recordEntry?_none {today e_d : PyDate} {r : Record}
    (h : r.birthday = none) : recordEntry? today e_d r = .ok none := by
  unfold recordEntry?
  rw [h]

lemma recordEntry?_total (e_d : PyDate) (r : Record) {today : PyDate}
    (ht : today.valid = true) (hy : today.year + 1 ≤ 9999)
    (hb : r.birthday.all PyDate.valid = true) :
    ∃ o, recordEntry? today e_d r = .ok o := by
  unfold recordEntry?
  cases hbd : r.birthday with
  | none => exact ⟨none, rfl⟩
  | some b =>
    rw [hbd] at hb
    simp only [Option.all_some] at hb
    dsimp only
    rw [candidate?_ok ht hy hb]
    dsimp only
    by_cases hw : (dateLe today
        (if dateLe today (specThisYear today b) = true then specThisYear today b
          else ⟨today.year + 1, b.month,
            if b.month = 2 && b.day = 29 then 28 else b.day⟩) &&
        dateLe (if dateLe today (specThisYear today b) = true then
            specThisYear today b
          else ⟨today.year + 1, b.month,
            if b.month = 2 && b.day = 29 then 28 else b.day⟩) e_d) = true
    · rw [if_pos hw]
      exact ⟨_, rfl⟩
    · rw [if_neg hw]
      exact ⟨none, rfl⟩

lemma collectEntries_total {today e_d : PyDate} (ht : today.valid = true)
    (hy : today.year + 1 ≤ 9999) {book : List Record}
    (hb : ∀ r ∈ book, r.birthday.all PyDate.valid = true) :
    ∃ l, collectEntries today e_d book = .ok l := by
  induction book with
  | nil => exact ⟨[], rfl⟩
  | cons r rs ih =>
    obtain ⟨l, hl⟩ := ih (fun x hx => hb x (List.mem_cons_of_mem _ hx))
    obtain ⟨o, ho⟩ := recordEntry?_total e_d r ht hy
      (hb r (List.mem_cons_self _ _))
    unfold collectEntries
    rw [ho]
    cases o with
    | none => exact ⟨l, hl⟩
    | some e =>
      rw [hl]
      exact ⟨e :: l, rfl⟩

lemma collectEntries_mem {today e_d : PyDate} {book : List Record}
    {l : List Entry} (h : collectEntries today e_d book = .ok l) (e : Entry) :
    e ∈ l ↔ ∃ r ∈ book, recordEntry? today e_d r = .ok (some e) := by
  induction book generalizing l with
  | nil =>
    obtain rfl : ([] : List Entry) = l := Except.ok.inj h
    simp
  | cons r rs ih =>
    unfold collectEntries at h
    cases hre : recordEntry? today e_d r with
    | error msg =>
      rw [hre] at h
      exact Except.noConfusion h
    | ok o =>
      rw [hre] at h
      cases o with
      | none =>
        rw [ih h]
        constructor
        · rintro ⟨r2, hr2, he2⟩
          exact ⟨r2, List.mem_cons_of_mem _ hr2, he2⟩
        · rintro ⟨r2, hr2, he2⟩
          rcases List.mem_cons.mp hr2 with rfl | hr2
          · rw [hre] at he2
            exact absurd (Except.ok.inj he2) (by simp)
          · exact ⟨r2, hr2, he2⟩
      | some e1 =>
        cases hrest : collectEntries today e_d rs with
        | error msg =>
          rw [hrest] at h
          exact Except.noConfusion h
        | ok es =>
          rw [hrest] at h
          obtain rfl : e1 :: es = l := Except.ok.inj h
          rw [List.mem_cons, ih hrest]
          constructor
          · rintro (rfl | ⟨r2, hr2, he2⟩)
            · exact ⟨r, List.mem_cons_self _ _, hre⟩
            · exact ⟨r2, List.mem_cons_of_mem _ hr2, he2⟩
          · rintro ⟨r2, hr2, he2⟩
            rcases List.mem_cons.mp hr2 with rfl | hr2
            · rw [hre] at he2
              exact Or.inl (Option.some.inj (Except.ok.inj he2)).symm
            · exact Or.inr ⟨r2, hr2, he2⟩

/-! ### Claim C1 -/

/-- C1 counterexample: with today = 2023-03-01 and birthday 29.02.2000, the
this-year candidate 2023-02-28 is earlier than today, the target year 2024
IS a leap year, yet the code rolls forward to 2024-02-28 — not to
2024-02-29 = (today.year+1, bm, bd) as the claim asserts for a leap target
year. -/
theorem C1_counterexample :
    bdayThisYear ⟨2023, 3, 1⟩ ⟨2000, 2, 29⟩ = some ⟨2023, 2, 28⟩ ∧
    dateLe ⟨2023, 3, 1⟩ ⟨2023, 2, 28⟩ = false ∧
    isLeap 2024 = true ∧
    candidate? ⟨2023, 3, 1⟩ ⟨2000, 2, 29⟩ = .ok (some ⟨2024, 2, 28⟩) ∧
    (⟨2024, 2, 28⟩ : PyDate) ≠ ⟨2024, 2, 29⟩ := by
  decide

/-- C1 (amended): when the this-year candidate is earlier than today, the
candidate rolls forward to `(today.year+1, bm, bd)` with Feb 28 substituted
for a Feb 29 birthday unconditionally — regardless of whether the target
year `today.year+1` is a leap year — and no error is raised. -/
theorem C1_amended (today b : PyDate) (ht : today.valid = true)
    (hy : today.year + 1 ≤ 9999) (hb : b.valid = true)
    (hroll : dateLe today (specThisYear today b) = false) :
    candidate? today b = .ok (some ⟨today.year + 1, b.month,
      if b.month = 2 ∧ b.day = 29 then 28 else b.day⟩) := by
  rw [candidate?_ok ht hy hb]
  rw [if_neg (by rw [hroll]; simp)]
  have hcond : (if b.month = 2 && b.day = 29 then 28 else b.day) =
      (if b.month = 2 ∧ b.day = 29 then 28 else b.day) := by
    by_cases h : b.month = 2 ∧ b.day = 29
    · rw [if_pos h, if_pos (by simp [h.1, h.2])]
    · rw [if_neg h, if_neg (by simpa using h)]
  rw [hcond]

/-- Witness: `C1_amended` applied at the concrete roll-forward scenario. -/
theorem C1_amended_witness :
    candidate? ⟨2023, 3, 1⟩ ⟨2000, 2, 29⟩ = .ok (some ⟨2024, 2, 28⟩) := by
  have h := C1_amended ⟨2023, 3, 1⟩ ⟨2000, 2, 29⟩ (by decide) (by decide)
    (by decide) (by decide)
  simpa using h

/-! ### Claim C2 -/

/-- C2: every emitted entry's congratulation date is the candidate shifted
by 2 days on a Saturday, 1 day on a Sunday and unchanged otherwise, with
the window test applied to the unshifted candidate only; concretely, with
today = 2024-01-07 (a Sunday) a birthday on Saturday 2024-01-13 qualifies
(it is within [today, today+7]) but its shifted congratulation date
2024-01-15 lies outside that window. -/
theorem C2 :
    (∀ (today e_d : PyDate) (r : Record) (e : Entry),
      recordEntry? today e_d r = .ok (some e) →
      ∃ b c, r.birthday = some b ∧ candidate? today b = .ok (some c) ∧
        dateLe today c = true ∧ dateLe c e_d = true ∧
        (weekday c = 5 → e.congratulation_date = formatISO (addDays 2 c)) ∧
        (weekday c = 6 → e.congratulation_date = formatISO (addDays 1 c)) ∧
        (¬ weekday c = 5 → ¬ weekday c = 6 →
          e.congratulation_date = formatISO c)) ∧
    (get_upcoming_birthdays [⟨"Bob".toList, [], some ⟨1990, 1, 13⟩⟩]
        ⟨2024, 1, 7⟩ = .ok [⟨"Bob".toList, formatISO ⟨2024, 1, 15⟩⟩] ∧
      weekday ⟨2024, 1, 13⟩ = 5 ∧
      dateLe ⟨2024, 1, 13⟩ (addDays 7 ⟨2024, 1, 7⟩) = true ∧
      dateLe ⟨2024, 1, 15⟩ (addDays 7 ⟨2024, 1, 7⟩) = false) := by
  constructor
  · intro today e_d r e h
    obtain ⟨b, c, hb, hc, h1, h2, he⟩ := recordEntry?_ok_some_iff.mp h
    refine ⟨b, c, hb, hc, h1, h2, ?_, ?_, ?_⟩
    · intro h5
      rw [he]
      simp [weekendShift, h5]
    · intro h6
      rw [he]
      simp [weekendShift, h6]
    · intro h5 h6
      rw [he]
      simp [weekendShift, h5, h6]
  · decide

/-- Witness: the general part of `C2` applied at the spec's Alice
example. -/
theorem C2_witness :
    (⟨"Alice".toList, formatISO ⟨2024, 1, 8⟩⟩ : Entry).congratulation_date =
      formatISO (addDays 2 ⟨2024, 1, 6⟩) := by
  obtain ⟨b, c, hb, hc, h1, h2, h5, h6, h0⟩ := C2.1 ⟨2024, 1, 1⟩
    (addDays 7 ⟨2024, 1, 1⟩) ⟨"Alice".toList, [], some ⟨1990, 1, 6⟩⟩
    ⟨"Alice".toList, formatISO ⟨2024, 1, 8⟩⟩ (by decide)
  obtain rfl : (⟨1990, 1, 6⟩ : PyDate) = b := Option.some.inj hb
  have hcv : candidate? ⟨2024, 1, 1⟩ ⟨1990, 1, 6⟩ = .ok (some ⟨2024, 1, 6⟩) := by
    decide
  rw [hcv] at hc
  obtain rfl : (⟨2024, 1, 6⟩ : PyDate) = c :=
    Option.some.inj (Except.ok.inj hc)
  exact h5 (by decide)

/-! ### Claim C8 -/

lemma collect_filter (today e_d : PyDate) (book : List Record) :
    collectEntries today e_d (book.filter (fun r => r.birthday.isSome)) =
      collectEntries today e_d book := by
  induction book with
  | nil => rfl
  | cons r rs ih =>
    by_cases hb : r.birthday.isSome = true
    · rw [List.filter_cons_of_pos (by simpa using hb)]
      unfold collectEntries
      rw [ih]
    · have hn : r.birthday = none := by
        cases hbd : r.birthday
        · rfl
        · rw [hbd] at hb
          exact absurd rfl hb
      have hskip : collectEntries today e_d (r :: rs) =
          collectEntries today e_d rs := by
        conv_lhs => unfold collectEntries
        rw [recordEntry?_none hn]
      rw [List.filter_cons_of_neg (by simpa using hb), ih, hskip]

/-- C8: for every reachable collection state (all stored birthdays are
real dates) and a valid clock date, `get_upcoming_birthdays` returns a
result and never raises: records without a birthday are skipped (filtering
them away does not change the result) and the empty collection yields the
empty sequence. -/
theorem C8 (today : PyDate) (ht : today.valid = true)
    (hy : today.year + 1 ≤ 9999) (book : List Record)
    (hb : ∀ r ∈ book, r.birthday.all PyDate.valid = true) :
    (∃ es, get_upcoming_birthdays book today = .ok es) ∧
    get_upcoming_birthdays [] today = .ok [] ∧
    get_upcoming_birthdays book today =
      get_upcoming_birthdays (book.filter (fun r => r.birthday.isSome)) today := by
  obtain ⟨l, hl⟩ := collectEntries_total ht hy hb
  refine ⟨⟨sortEntries l, ?_⟩, rfl, ?_⟩
  · unfold get_upcoming_birthdays
    rw [hl]
  · unfold get_upcoming_birthdays
    rw [collect_filter]

/-- Witness: `C8` applied at a concrete book containing a Feb 29 birthday
and a record without a birthday. -/
theorem C8_witness :
    (∃ es, get_upcoming_birthdays
      [⟨"A".toList, [], some ⟨2000, 2, 29⟩⟩, ⟨"B".toList, [], none⟩]
      ⟨2025, 2, 24⟩ = .ok es) ∧
    get_upcoming_birthdays ([] : List Record) ⟨2025, 2, 24⟩ = .ok [] := by
  have h := C8 ⟨2025, 2, 24⟩ (by decide) (by decide)
    [⟨"A".toList, [], some ⟨2000, 2, 29⟩⟩, ⟨"B".toList, [], none⟩] (by decide)
  exact ⟨h.1, h.2.1⟩

/-! ### Claim C3 -/

/-- C3: for a record with a (real) birthday, the this-year candidate is
`(today.year, bm, bd)` with Feb 28 substituted exactly when the birthday is
Feb 29 and `today.year` is not leap; and the record contributes an entry to
the result if and only if the candidate produced by the code (after any
roll-forward) satisfies `today <= candidate <= today + 7 days`, both ends
inclusive. -/
theorem C3 (today b : PyDate) (book : List Record) (r : Record)
    (es : List Entry) (ht : today.valid = true)
    (hy : today.year + 1 ≤ 9999) (hb : b.valid = true) (hr : r ∈ book)
    (hbd : r.birthday = some b) (hnames : (book.map Record.name).Nodup)
    (hok : get_upcoming_birthdays book today = .ok es) :
    bdayThisYear today b = some (specThisYear today b) ∧
    ∃ c, candidate? today b = .ok (some c) ∧
      ((∃ e ∈ es, e.name = r.name) ↔
        (dateLe today c = true ∧ dateLe c (addDays 7 today) = true)) := by
  refine ⟨bdayThisYear_eq_spec ht hb, ?_⟩
  unfold get_upcoming_birthdays at hok
  cases hcol : collectEntries today (addDays 7 today) book with
  | error msg =>
    rw [hcol] at hok
    exact Except.noConfusion hok
  | ok l =>
    rw [hcol] at hok
    obtain rfl : sortEntries l = es := Except.ok.inj hok
    have hperm := List.perm_insertionSort entryLe l
    refine ⟨_, candidate?_ok ht hy hb, ?_⟩
    constructor
    · rintro ⟨e, he, hname⟩
      have he2 : e ∈ l := hperm.mem_iff.mp he
      obtain ⟨r2, hr2, hre2⟩ := (collectEntries_mem hcol e).mp he2
      obtain ⟨b2, c2, hbd2, hc2, hw1, hw2, rfl⟩ :=
        recordEntry?_ok_some_iff.mp hre2
      have hrr : r2 = r :=
        List.inj_on_of_nodup_map hnames hr2 hr (by exact hname)
      subst hrr
      obtain rfl : b = b2 := Option.some.inj (hbd.symm.trans hbd2)
      rw [candidate?_ok ht hy hb] at hc2
      obtain rfl := Option.some.inj (Except.ok.inj hc2)
      exact ⟨hw1, hw2⟩
    · rintro ⟨hw1, hw2⟩
      exact ⟨⟨r.name, formatISO (weekendShift _)⟩,
        hperm.mem_iff.mpr ((collectEntries_mem hcol _).mpr
          ⟨r, hr, recordEntry?_ok_some_iff.mpr
            ⟨b, _, hbd, candidate?_ok ht hy hb, hw1, hw2, rfl⟩⟩), rfl⟩

/-- Witness: `C3` applied at the spec's Alice example. -/
theorem C3_witness :
    bdayThisYear ⟨2024, 1, 1⟩ ⟨1990, 1, 6⟩ =
      some (specThisYear ⟨2024, 1, 1⟩ ⟨1990, 1, 6⟩) ∧
    ∃ c, candidate? ⟨2024, 1, 1⟩ ⟨1990, 1, 6⟩ = .ok (some c) ∧
      ((∃ e ∈ [(⟨"Alice".toList, formatISO ⟨2024, 1, 8⟩⟩ : Entry)],
          e.name = "Alice".toList) ↔
        (dateLe ⟨2024, 1, 1⟩ c = true ∧
          dateLe c (addDays 7 ⟨2024, 1, 1⟩) = true)) :=
  C3 ⟨2024, 1, 1⟩ ⟨1990, 1, 6⟩ [⟨"Alice".toList, [], some ⟨1990, 1, 6⟩⟩]
    ⟨"Alice".toList, [], some ⟨1990, 1, 6⟩⟩
    [⟨"Alice".toList, formatISO ⟨2024, 1, 8⟩⟩] (by decide) (by decide)
    (by decide) (by decide) (by decide) (by decide) (by decide)

/-! ### Claim C4: lemmas about the `strptime` fields -/

lemma char_cases_1_9 {c : Char} (h1 : '1' ≤ c) (h2 : c ≤ '9') :
    c = '1' ∨ c = '2' ∨ c = '3' ∨ c = '4' ∨ c = '5' ∨ c = '6' ∨ c = '7' ∨
      c = '8' ∨ c = '9' := by
  have hn1 : 49 ≤ c.toNat := h1
  have hn2 : c.toNat ≤ 57 := h2
  have hd : c.toNat = 49 ∨ c.toNat = 50 ∨ c.toNat = 51 ∨ c.toNat = 52 ∨
      c.toNat = 53 ∨ c.toNat = 54 ∨ c.toNat = 55 ∨ c.toNat = 56 ∨
      c.toNat = 57 := by omega
  rcases hd with h | h | h | h | h | h | h | h | h
  · exact Or.inl (char_eq_of_toNat h)
  · exact Or.inr (Or.inl (char_eq_of_toNat h))
  · exact Or.inr (Or.inr (Or.inl (char_eq_of_toNat h)))
  · exact Or.inr (Or.inr (Or.inr (Or.inl (char_eq_of_toNat h))))
  · exact Or.inr (Or.inr (Or.inr (Or.inr (Or.inl (char_eq_of_toNat h)))))
  · exact Or.inr (Or.inr (Or.inr (Or.inr (Or.inr (Or.inl (char_eq_of_toNat h))))))
  · exact Or.inr (Or.inr (Or.inr (Or.inr (Or.inr (Or.inr (Or.inl
      (char_eq_of_toNat h)))))))
  · exact Or.inr (Or.inr (Or.inr (Or.inr (Or.inr (Or.inr (Or.inr (Or.inl
      (char_eq_of_toNat h))))))))
  · exact Or.inr (Or.inr (Or.inr (Or.inr (Or.inr (Or.inr (Or.inr (Or.inr
      (char_eq_of_toNat h))))))))

lemma specAsciiDigit_bounds {c : Char} (h : specAsciiDigit c = true) :
    48 ≤ c.toNat ∧ c.toNat ≤ 57 := by
  simp only [specAsciiDigit, Bool.and_eq_true, decide_eq_true_eq] at h
  exact ⟨h.1, h.2⟩

lemma decDigit_ascii {c : Char} (h : specAsciiDigit c = true) :
    decDigitVal? c = some (c.toNat - 48) := by
  obtain ⟨h1, h2⟩ := specAsciiDigit_bounds h
  unfold decDigitVal?
  rw [if_pos ⟨h1, h2⟩]

lemma digitChar_inv {c : Char} (h : specAsciiDigit c = true) :
    digitChar (c.toNat - 48) = c := by
  obtain ⟨h1, h2⟩ := specAsciiDigit_bounds h
  exact char_eq_of_toNat (by rw [digitChar_toNat (by omega)]; omega)

lemma takeDay_inv {s : List Char} {d : Nat} {r : List Char}
    (h : takeDay s = some (d, r)) :
    ∃ p1, s = p1 ++ r ∧ dayVal? p1 = some d := by
  cases s with
  | nil => simp [takeDay] at h
  | cons c1 rest =>
    unfold takeDay at h
    dsimp only at h
    by_cases h3 : c1 = '3'
    · subst h3
      rw [if_pos rfl] at h
      cases rest with
      | nil =>
        simp only [Option.some.injEq, Prod.mk.injEq] at h
        obtain ⟨rfl, rfl⟩ := h
        exact ⟨['3'], by simp, by decide⟩
      | cons c2 rest2 =>
        dsimp only at h
        by_cases h01 : (c2 = '0' || c2 = '1') = true
        · rw [if_pos h01] at h
          simp only [Option.some.injEq, Prod.mk.injEq] at h
          obtain ⟨rfl, rfl⟩ := h
          exact ⟨['3', c2], by simp, by simp [dayVal?, h01]⟩
        · rw [if_neg h01] at h
          simp only [Option.some.injEq, Prod.mk.injEq] at h
          obtain ⟨rfl, rfl⟩ := h
          exact ⟨['3'], by simp, by decide⟩
    · rw [if_neg h3] at h
      by_cases h12 : (c1 = '1' || c1 = '2') = true
      · rw [if_pos h12] at h
        have hsingle : dayVal? [c1] = some (c1.toNat - 48) := by
          rcases Bool.or_eq_true _ _ |>.mp h12 with h1 | h1 <;>
            rw [decide_eq_true_eq] at h1 <;> subst h1 <;> decide
        cases rest with
        | nil =>
          simp only [Option.some.injEq, Prod.mk.injEq] at h
          obtain ⟨rfl, rfl⟩ := h
          exact ⟨[c1], by simp, hsingle⟩
        | cons c2 rest2 =>
          dsimp only at h
          cases hdv : decDigitVal? c2 with
          | some v =>
            rw [hdv] at h
            dsimp only at h
            simp only [Option.some.injEq, Prod.mk.injEq] at h
            obtain ⟨rfl, rfl⟩ := h
            refine ⟨[c1, c2], by simp, ?_⟩
            rcases Bool.or_eq_true _ _ |>.mp h12 with h1 | h1 <;>
              rw [decide_eq_true_eq] at h1 <;> subst h1 <;> simp [dayVal?, hdv]
          | none =>
            rw [hdv] at h
            dsimp only at h
            simp only [Option.some.injEq, Prod.mk.injEq] at h
            obtain ⟨rfl, rfl⟩ := h
            exact ⟨[c1], by simp, hsingle⟩
      · rw [if_neg h12] at h
        by_cases h0 : c1 = '0'
        · subst h0
          rw [if_pos rfl] at h
          cases rest with
          | nil => exact absurd h (by simp)
          | cons c2 rest2 =>
            dsimp only at h
            by_cases h19 : (decide ('1' ≤ c2) && decide (c2 ≤ '9')) = true
            · rw [if_pos h19] at h
              simp only [Option.some.injEq, Prod.mk.injEq] at h
              obtain ⟨rfl, rfl⟩ := h
              exact ⟨['0', c2], by simp, by simp [dayVal?, h19]⟩
            · rw [if_neg h19] at h
              exact absurd h (by simp)
        · rw [if_neg h0] at h
          by_cases h49 : (decide ('4' ≤ c1) && decide (c1 ≤ '9')) = true
          · rw [if_pos h49] at h
            simp only [Option.some.injEq, Prod.mk.injEq] at h
            obtain ⟨rfl, rfl⟩ := h
            refine ⟨[c1], by simp, ?_⟩
            simp only [Bool.and_eq_true, decide_eq_true_eq] at h49
            simp only [dayVal?]
            rw [if_pos (by
              simp only [Bool.and_eq_true, decide_eq_true_eq]
              exact ⟨le_trans (by decide) h49.1, h49.2⟩)]
          · rw [if_neg h49] at h
            exact absurd h (by simp)

lemma takeMonth_inv {s : List Char} {m : Nat} {r : List Char}
    (h : takeMonth s = some (m, r)) :
    ∃ p2, s = p2 ++ r ∧ monthVal? p2 = some m := by
  cases s with
  | nil => simp [takeMonth] at h
  | cons c1 rest =>
    unfold takeMonth at h
    dsimp only at h
    by_cases h1 : c1 = '1'
    · subst h1
      rw [if_pos rfl] at h
      cases rest with
      | nil =>
        simp only [Option.some.injEq, Prod.mk.injEq] at h
        obtain ⟨rfl, rfl⟩ := h
        exact ⟨['1'], by simp, by decide⟩
      | cons c2 rest2 =>
        dsimp only at h
        by_cases h012 : (c2 = '0' || c2 = '1' || c2 = '2') = true
        · rw [if_pos h012] at h
          simp only [Option.some.injEq, Prod.mk.injEq] at h
          obtain ⟨rfl, rfl⟩ := h
          exact ⟨['1', c2], by simp, by simp [monthVal?, h012]⟩
        · rw [if_neg h012] at h
          simp only [Option.some.injEq, Prod.mk.injEq] at h
          obtain ⟨rfl, rfl⟩ := h
          exact ⟨['1'], by simp, by decide⟩
    · rw [if_neg h1] at h
      by_cases h0 : c1 = '0'
      · subst h0
        rw [if_pos rfl] at h
        cases rest with
        | nil => exact absurd h (by simp)
        | cons c2 rest2 =>
          dsimp only at h
          by_cases h19 : (decide ('1' ≤ c2) && decide (c2 ≤ '9')) = true
          · rw [if_pos h19] at h
            simp only [Option.some.injEq, Prod.mk.injEq] at h
            obtain ⟨rfl, rfl⟩ := h
            exact ⟨['0', c2], by simp, by simp [monthVal?, h19]⟩
          · rw [if_neg h19] at h
            exact absurd h (by simp)
      · rw [if_neg h0] at h
        by_cases h29 : (decide ('2' ≤ c1) && decide (c1 ≤ '9')) = true
        · rw [if_pos h29] at h
          simp only [Option.some.injEq, Prod.mk.injEq] at h
          obtain ⟨rfl, rfl⟩ := h
          refine ⟨[c1], by simp, ?_⟩
          simp only [Bool.and_eq_true, decide_eq_true_eq] at h29
          simp only [monthVal?]
          rw [if_pos (by
            simp only [Bool.and_eq_true, decide_eq_true_eq]
            exact ⟨le_trans (by decide) h29.1, h29.2⟩)]
        · rw [if_neg h29] at h
          exact absurd h (by simp)

lemma takeYear_inv {s : List Char} {y : Nat} {r : List Char}
    (h : takeYear s = some (y, r)) :
    ∃ p3, s = p3 ++ r ∧ yearVal? p3 = some y := by
  match s, h with
  | [], h => simp [takeYear] at h
  | [a], h => simp [takeYear] at h
  | [a, b], h => simp [takeYear] at h
  | [a, b, c], h => simp [takeYear] at h
  | a :: b :: c :: d :: rest, h =>
    unfold takeYear at h
    dsimp only at h
    cases hva : decDigitVal? a with
    | none => rw [hva] at h; simp at h
    | some va =>
      rw [hva] at h
      cases hvb : decDigitVal? b with
      | none => rw [hvb] at h; simp at h
      | some vb =>
        rw [hvb] at h
        cases hvc : decDigitVal? c with
        | none => rw [hvc] at h; simp at h
        | some vc =>
          rw [hvc] at h
          cases hvd : decDigitVal? d with
          | none => rw [hvd] at h; simp at h
          | some vd =>
            rw [hvd] at h
            dsimp only at h
            simp only [Option.some.injEq, Prod.mk.injEq] at h
            obtain ⟨rfl, rfl⟩ := h
            exact ⟨[a, b, c, d], by simp,
              by simp [yearVal?, hva, hvb, hvc, hvd]⟩

lemma takeDay_run {p1 : List Char} {d : Nat} (h : dayVal? p1 = some d)
    (t : List Char) : takeDay (p1 ++ '.' :: t) = some (d, '.' :: t) := by
  match p1, h with
  | [c], h =>
    simp only [dayVal?] at h
    by_cases h19 : (decide ('1' ≤ c) && decide (c ≤ '9')) = true
    · rw [if_pos h19] at h
      obtain rfl := Option.some.inj h
      simp only [Bool.and_eq_true, decide_eq_true_eq] at h19
      rcases char_cases_1_9 h19.1 h19.2 with rfl | rfl | rfl | rfl | rfl |
        rfl | rfl | rfl | rfl <;> simp [takeDay, decDigitVal?]
    · rw [if_neg h19] at h
      exact Option.noConfusion h
  | [c1, c2], h =>
    simp only [dayVal?] at h
    by_cases h0 : c1 = '0'
    · subst h0
      rw [if_pos rfl] at h
      by_cases h19 : (decide ('1' ≤ c2) && decide (c2 ≤ '9')) = true
      · rw [if_pos h19] at h
        obtain rfl := Option.some.inj h
        simp [takeDay, h19]
      · rw [if_neg h19] at h
        exact Option.noConfusion h
    · rw [if_neg h0] at h
      by_cases h12 : (c1 = '1' || c1 = '2') = true
      · rw [if_pos h12] at h
        cases hdv : decDigitVal? c2 with
        | none =>
          rw [hdv] at h
          exact Option.noConfusion h
        | some v =>
          rw [hdv] at h
          dsimp only at h
          obtain rfl := Option.some.inj h
          rcases Bool.or_eq_true _ _ |>.mp h12 with h1 | h1 <;>
            rw [decide_eq_true_eq] at h1 <;> subst h1 <;> simp [takeDay, hdv]
      · rw [if_neg h12] at h
        by_cases h3 : c1 = '3'
        · subst h3
          rw [if_pos rfl] at h
          by_cases h01 : (c2 = '0' || c2 = '1') = true
          · rw [if_pos h01] at h
            obtain rfl := Option.some.inj h
            simp [takeDay, h01]
          · rw [if_neg h01] at h
            exact Option.noConfusion h
        · rw [if_neg h3] at h
          exact Option.noConfusion h

lemma takeMonth_run {p2 : List Char} {m : Nat} (h : monthVal? p2 = some m)
    (t : List Char) : takeMonth (p2 ++ '.' :: t) = some (m, '.' :: t) := by
  match p2, h with
  | [c], h =>
    simp only [monthVal?] at h
    by_cases h19 : (decide ('1' ≤ c) && decide (c ≤ '9')) = true
    · rw [if_pos h19] at h
      obtain rfl := Option.some.inj h
      simp only [Bool.and_eq_true, decide_eq_true_eq] at h19
      rcases char_cases_1_9 h19.1 h19.2 with rfl | rfl | rfl | rfl | rfl |
        rfl | rfl | rfl | rfl <;> simp [takeMonth]
    · rw [if_neg h19] at h
      exact Option.noConfusion h
  | [c1, c2], h =>
    simp only [monthVal?] at h
    by_cases h0 : c1 = '0'
    · subst h0
      rw [if_pos rfl] at h
      by_cases h19 : (decide ('1' ≤ c2) && decide (c2 ≤ '9')) = true
      · rw [if_pos h19] at h
        obtain rfl := Option.some.inj h
        simp [takeMonth, h19]
      · rw [if_neg h19] at h
        exact Option.noConfusion h
    · rw [if_neg h0] at h
      by_cases h1 : c1 = '1'
      · subst h1
        rw [if_pos rfl] at h
        by_cases h012 : (c2 = '0' || c2 = '1' || c2 = '2') = true
        · rw [if_pos h012] at h
          obtain rfl := Option.some.inj h
          simp [takeMonth, h012]
        · rw [if_neg h012] at h
          exact Option.noConfusion h
      · rw [if_neg h1] at h
        exact Option.noConfusion h

lemma takeYear_run {p3 : List Char} {y : Nat} (h : yearVal? p3 = some y) :
    takeYear p3 = some (y, []) := by
  match p3, h with
  | [a, b, c, d], h =>
    unfold yearVal? at h
    dsimp only at h
    cases hva : decDigitVal? a with
    | none => rw [hva] at h; simp at h
    | some va =>
      rw [hva] at h
      cases hvb : decDigitVal? b with
      | none => rw [hvb] at h; simp at h
      | some vb =>
        rw [hvb] at h
        cases hvc : decDigitVal? c with
        | none => rw [hvc] at h; simp at h
        | some vc =>
          rw [hvc] at h
          cases hvd : decDigitVal? d with
          | none => rw [hvd] at h; simp at h
          | some vd =>
            rw [hvd] at h
            dsimp only at h
            obtain rfl := Option.some.inj h
            simp [takeYear, hva, hvb, hvc, hvd]

lemma expectDot_inv {r r2 : List Char} (h : expectDot r = some r2) :
    r = '.' :: r2 := by
  cases r with
  | nil => exact Option.noConfusion h
  | cons c t =>
    unfold expectDot at h
    dsimp only at h
    by_cases hc : c = '.'
    · subst hc
      rw [if_pos rfl] at h
      rw [Option.some.inj h]
    · rw [if_neg hc] at h
      exact Option.noConfusion h

lemma strptimeDMY_some_iff {s : List Char} {dt : PyDate} :
    strptimeDMY s = some dt ↔
      ∃ p1 p2 p3, s = p1 ++ '.' :: (p2 ++ '.' :: p3) ∧
        dayVal? p1 = some dt.day ∧ monthVal? p2 = some dt.month ∧
        yearVal? p3 = some dt.year ∧
        validYMD dt.year dt.month dt.day = true := by
  constructor
  · intro h
    unfold strptimeDMY at h
    cases hd : takeDay s with
    | none => rw [hd] at h; exact Option.noConfusion h
    | some pr =>
      obtain ⟨d, r1⟩ := pr
      rw [hd] at h
      dsimp only at h
      cases hdot1 : expectDot r1 with
      | none => rw [hdot1] at h; exact Option.noConfusion h
      | some r2 =>
        rw [hdot1] at h
        dsimp only at h
        cases hm : takeMonth r2 with
        | none => rw [hm] at h; exact Option.noConfusion h
        | some pr2 =>
          obtain ⟨m, r3⟩ := pr2
          rw [hm] at h
          dsimp only at h
          cases hdot2 : expectDot r3 with
          | none => rw [hdot2] at h; exact Option.noConfusion h
          | some r4 =>
            rw [hdot2] at h
            dsimp only at h
            cases hy : takeYear r4 with
            | none => rw [hy] at h; exact Option.noConfusion h
            | some pr3 =>
              obtain ⟨y, r5⟩ := pr3
              rw [hy] at h
              cases r5 with
              | cons c5 t5 =>
                dsimp only at h
                exact Option.noConfusion h
              | nil =>
                dsimp only at h
                by_cases hv : validYMD y m d = true
                · rw [if_pos hv] at h
                  obtain rfl := Option.some.inj h
                  obtain ⟨p1, hs1, hp1⟩ := takeDay_inv hd
                  obtain ⟨p2, hs2, hp2⟩ := takeMonth_inv hm
                  obtain ⟨p3, hs3, hp3⟩ := takeYear_inv hy
                  rw [List.append_nil] at hs3
                  refine ⟨p1, p2, p3, ?_, hp1, hp2, hp3, hv⟩
                  rw [hs1, expectDot_inv hdot1, hs2, expectDot_inv hdot2, hs3]
                · rw [if_neg hv] at h
                  exact Option.noConfusion h
  · rintro ⟨p1, p2, p3, rfl, hp1, hp2, hp3, hv⟩
    unfold strptimeDMY
    rw [takeDay_run hp1]
    dsimp only
    rw [show expectDot ('.' :: (p2 ++ '.' :: p3)) = some (p2 ++ '.' :: p3)
      from by simp [expectDot]]
    dsimp only
    rw [takeMonth_run hp2]
    dsimp only
    rw [show expectDot ('.' :: p3) = some p3 from by simp [expectDot]]
    dsimp only
    rw [takeYear_run hp3]
    dsimp only
    rw [if_pos hv]

lemma Birthday_value_ok_iff {raw : List Char} {dt : PyDate} :
    Birthday_value raw = .ok dt ↔ strptimeDMY (pyStrip raw) = some dt := by
  unfold Birthday_value
  cases hs : strptimeDMY (pyStrip raw) with
  | none =>
    dsimp only
    exact ⟨fun hh => Except.noConfusion hh, fun hh => Option.noConfusion hh⟩
  | some d2 =>
    dsimp only
    constructor
    · intro hh
      rw [Except.ok.inj hh]
    · intro hh
      rw [Option.some.inj hh]

lemma Birthday_value_error {raw : List Char} {e : String}
    (h : Birthday_value raw = .error e) : e = dateErrMsg := by
  unfold Birthday_value at h
  cases hs : strptimeDMY (pyStrip raw) with
  | none =>
    rw [hs] at h
    exact (Except.error.inj h).symm
  | some d2 =>
    rw [hs] at h
    exact Except.noConfusion h

lemma daysInMonth_le31 (y m : Nat) : daysInMonth y m ≤ 31 := by
  unfold daysInMonth
  split
  · split <;> omega
  · split <;> omega

lemma not_space_of_ge46 {c : Char} (h : 46 ≤ c.toNat) : pyIsSpace c = false := by
  cases hs : pyIsSpace c
  · rfl
  · have := pyIsSpace_le hs
    omega

lemma pad2_eq {c1 c2 : Char} (h1 : specAsciiDigit c1 = true)
    (h2 : specAsciiDigit c2 = true) :
    pad2 (10 * (c1.toNat - 48) + (c2.toNat - 48)) = [c1, c2] := by
  obtain ⟨a1, a2⟩ := specAsciiDigit_bounds h1
  obtain ⟨b1, b2⟩ := specAsciiDigit_bounds h2
  unfold pad2
  have e1 : (10 * (c1.toNat - 48) + (c2.toNat - 48)) / 10 % 10 =
      c1.toNat - 48 := by omega
  have e2 : (10 * (c1.toNat - 48) + (c2.toNat - 48)) % 10 =
      c2.toNat - 48 := by omega
  rw [e1, e2, digitChar_inv h1, digitChar_inv h2]

lemma pad4_eq {c1 c2 c3 c4 : Char} (h1 : specAsciiDigit c1 = true)
    (h2 : specAsciiDigit c2 = true) (h3 : specAsciiDigit c3 = true)
    (h4 : specAsciiDigit c4 = true) :
    pad4 (1000 * (c1.toNat - 48) + 100 * (c2.toNat - 48) +
      10 * (c3.toNat - 48) + (c4.toNat - 48)) = [c1, c2, c3, c4] := by
  obtain ⟨a1, a2⟩ := specAsciiDigit_bounds h1
  obtain ⟨b1, b2⟩ := specAsciiDigit_bounds h2
  obtain ⟨d1, d2⟩ := specAsciiDigit_bounds h3
  obtain ⟨e1, e2⟩ := specAsciiDigit_bounds h4
  unfold pad4
  have f1 : (1000 * (c1.toNat - 48) + 100 * (c2.toNat - 48) +
      10 * (c3.toNat - 48) + (c4.toNat - 48)) / 1000 % 10 =
      c1.toNat - 48 := by omega
  have f2 : (1000 * (c1.toNat - 48) + 100 * (c2.toNat - 48) +
      10 * (c3.toNat - 48) + (c4.toNat - 48)) / 100 % 10 =
      c2.toNat - 48 := by omega
  have f3 : (1000 * (c1.toNat - 48) + 100 * (c2.toNat - 48) +
      10 * (c3.toNat - 48) + (c4.toNat - 48)) / 10 % 10 =
      c3.toNat - 48 := by omega
  have f4 : (1000 * (c1.toNat - 48) + 100 * (c2.toNat - 48) +
      10 * (c3.toNat - 48) + (c4.toNat - 48)) % 10 =
      c4.toNat - 48 := by omega
  rw [f1, f2, f3, f4, digitChar_inv h1, digitChar_inv h2, digitChar_inv h3,
    digitChar_inv h4]

lemma dayVal?_pad {c1 c2 : Char} (h1 : specAsciiDigit c1 = true)
    (h2 : specAsciiDigit c2 = true)
    (hlo : 1 ≤ 10 * (c1.toNat - 48) + (c2.toNat - 48))
    (hhi : 10 * (c1.toNat - 48) + (c2.toNat - 48) ≤ 31) :
    dayVal? [c1, c2] = some (10 * (c1.toNat - 48) + (c2.toNat - 48)) := by
  obtain ⟨a1, a2⟩ := specAsciiDigit_bounds h1
  obtain ⟨b1, b2⟩ := specAsciiDigit_bounds h2
  simp only [dayVal?]
  by_cases h0 : c1 = '0'
  · rw [if_pos h0]
    have hc1 : c1.toNat = 48 := by rw [h0]; rfl
    rw [if_pos (by
      simp only [Bool.and_eq_true, decide_eq_true_eq]
      exact ⟨show 49 ≤ c2.toNat by omega, show c2.toNat ≤ 57 by omega⟩)]
    congr 1
    omega
  · rw [if_neg h0]
    have hc1ne : c1.toNat ≠ 48 := fun hh => h0 (char_eq_of_toNat hh)
    by_cases h12 : (c1 = '1' || c1 = '2') = true
    · rw [if_pos h12, decDigit_ascii h2]
    · rw [if_neg h12]
      simp only [Bool.or_eq_true, decide_eq_true_eq, not_or] at h12
      have hn1 : c1.toNat ≠ 49 := fun hh => h12.1 (char_eq_of_toNat hh)
      have hn2 : c1.toNat ≠ 50 := fun hh => h12.2 (char_eq_of_toNat hh)
      have hc1 : c1.toNat = 51 := by omega
      have hc3 : c1 = '3' := char_eq_of_toNat (by rw [hc1]; rfl)
      rw [if_pos hc3]
      have hc2 : c2.toNat = 48 ∨ c2.toNat = 49 := by omega
      rw [if_pos (by
        rcases hc2 with hh | hh
        · simp [char_eq_of_toNat (show c2.toNat = ('0' : Char).toNat from hh)]
        · simp [char_eq_of_toNat (show c2.toNat = ('1' : Char).toNat from hh)])]
      congr 1
      omega

lemma monthVal?_pad {c1 c2 : Char} (h1 : specAsciiDigit c1 = true)
    (h2 : specAsciiDigit c2 = true)
    (hlo : 1 ≤ 10 * (c1.toNat - 48) + (c2.toNat - 48))
    (hhi : 10 * (c1.toNat - 48) + (c2.toNat - 48) ≤ 12) :
    monthVal? [c1, c2] = some (10 * (c1.toNat - 48) + (c2.toNat - 48)) := by
  obtain ⟨a1, a2⟩ := specAsciiDigit_bounds h1
  obtain ⟨b1, b2⟩ := specAsciiDigit_bounds h2
  simp only [monthVal?]
  by_cases h0 : c1 = '0'
  · rw [if_pos h0]
    have hc1 : c1.toNat = 48 := by rw [h0]; rfl
    rw [if_pos (by
      simp only [Bool.and_eq_true, decide_eq_true_eq]
      exact ⟨show 49 ≤ c2.toNat by omega, show c2.toNat ≤ 57 by omega⟩)]
    congr 1
    omega
  · rw [if_neg h0]
    have hc1ne : c1.toNat ≠ 48 := fun hh => h0 (char_eq_of_toNat hh)
    have hc1 : c1.toNat = 49 := by omega
    have hc1' : c1 = '1' := char_eq_of_toNat (by rw [hc1]; rfl)
    rw [if_pos hc1']
    have hc2 : c2.toNat = 48 ∨ c2.toNat = 49 ∨ c2.toNat = 50 := by omega
    rw [if_pos (by
      rcases hc2 with hh | hh | hh
      · simp [char_eq_of_toNat (show c2.toNat = ('0' : Char).toNat from hh)]
      · simp [char_eq_of_toNat (show c2.toNat = ('1' : Char).toNat from hh)]
      · simp [char_eq_of_toNat (show c2.toNat = ('2' : Char).toNat from hh)])]
    congr 1
    omega

lemma yearVal?_pad {c1 c2 c3 c4 : Char} (h1 : specAsciiDigit c1 = true)
    (h2 : specAsciiDigit c2 = true) (h3 : specAsciiDigit c3 = true)
    (h4 : specAsciiDigit c4 = true) :
    yearVal? [c1, c2, c3, c4] = some (1000 * (c1.toNat - 48) +
      100 * (c2.toNat - 48) + 10 * (c3.toNat - 48) + (c4.toNat - 48)) := by
  simp [yearVal?, decDigit_ascii h1, decDigit_ascii h2, decDigit_ascii h3,
    decDigit_ascii h4]

lemma specStrict_sound {s : List Char} {dt : PyDate}
    (h : specStrictDMY s = some dt) :
    Birthday_value s = .ok dt ∧ formatDMY dt = s := by
  match s, h with
  | [d1, d2, dot1, m1, m2, dot2, y1, y2, y3, y4], h => ?_
  unfold specStrictDMY at h
  dsimp only at h
  by_cases hclass : (decide (dot1 = '.') && decide (dot2 = '.') &&
      specAsciiDigit d1 && specAsciiDigit d2 && specAsciiDigit m1 &&
      specAsciiDigit m2 && specAsciiDigit y1 && specAsciiDigit y2 &&
      specAsciiDigit y3 && specAsciiDigit y4) = true
  · rw [if_pos hclass] at h
    simp only [Bool.and_eq_true, decide_eq_true_eq] at hclass
    obtain ⟨⟨⟨⟨⟨⟨⟨⟨⟨hdot1, hdot2⟩, hd1⟩, hd2⟩, hm1⟩, hm2⟩, hy1⟩, hy2⟩,
      hy3⟩, hy4⟩ := hclass
    subst hdot1
    subst hdot2
    by_cases hv : validYMD
        (1000 * (y1.toNat - 48) + 100 * (y2.toNat - 48) +
          10 * (y3.toNat - 48) + (y4.toNat - 48))
        (10 * (m1.toNat - 48) + (m2.toNat - 48))
        (10 * (d1.toNat - 48) + (d2.toNat - 48)) = true
    · rw [if_pos hv] at h
      obtain rfl := Option.some.inj h
      have hvf := hv
      simp only [validYMD, Bool.and_eq_true, decide_eq_true_eq,
        and_assoc] at hvf
      obtain ⟨hvy1, hvy2, hvm1, hvm2, hvd1, hvd2⟩ := hvf
      have hd31 : 10 * (d1.toNat - 48) + (d2.toNat - 48) ≤ 31 :=
        le_trans hvd2 (daysInMonth_le31 _ _)
      have hstrip : pyStrip [d1, d2, '.', m1, m2, '.', y1, y2, y3, y4] =
          [d1, d2, '.', m1, m2, '.', y1, y2, y3, y4] := by
        apply pyStrip_eq_self
        intro c hc
        simp only [List.mem_cons, List.not_mem_nil, or_false] at hc
        have h46 : 46 ≤ c.toNat := by
          rcases hc with rfl | rfl | rfl | rfl | rfl | rfl | rfl | rfl |
            rfl | rfl
          · have := specAsciiDigit_bounds hd1; omega
          · have := specAsciiDigit_bounds hd2; omega
          · decide
          · have := specAsciiDigit_bounds hm1; omega
          · have := specAsciiDigit_bounds hm2; omega
          · decide
          · have := specAsciiDigit_bounds hy1; omega
          · have := specAsciiDigit_bounds hy2; omega
          · have := specAsciiDigit_bounds hy3; omega
          · have := specAsciiDigit_bounds hy4; omega
        exact not_space_of_ge46 h46
      constructor
      · apply Birthday_value_ok_iff.mpr
        rw [hstrip]
        apply strptimeDMY_some_iff.mpr
        refine ⟨[d1, d2], [m1, m2], [y1, y2, y3, y4], by simp, ?_, ?_, ?_, hv⟩
        · exact dayVal?_pad hd1 hd2 hvd1 hd31
        · exact monthVal?_pad hm1 hm2 hvm1 hvm2
        · exact yearVal?_pad hy1 hy2 hy3 hy4
      · unfold formatDMY
        rw [pad2_eq hd1 hd2, pad2_eq hm1 hm2, pad4_eq hy1 hy2 hy3 hy4]
        rfl
    · rw [if_neg hv] at h
      exact Option.noConfusion h
  · rw [if_neg hclass] at h
    exact Option.noConfusion h

/-! ### The claim-C4 theorems -/

/-- C4 counterexample: `Birthday.create` accepts `"1.1.2020"` — Python's
`strptime` `%d`/`%m` also match a single digit — although that string does
not strictly match the 2-digit-day, 2-digit-month `DD.MM.YYYY` pattern,
refuting "succeeds exactly on strings strictly matching" it. -/
theorem C4_counterexample :
    Birthday_value ("1.1.2020".toList) = .ok ⟨2020, 1, 1⟩ ∧
    specStrictDMY ("1.1.2020".toList) = none := by
  decide

/-- C4 (amended): after trimming, `Birthday.create(raw)` succeeds exactly on
strings of the form day `.` month `.` 4-digit year denoting a real calendar
date, where the day field matches `3[01] | [12]d | 0[1-9] | [1-9]` and the
month field matches `1[0-2] | 0[1-9] | [1-9]` (so one-digit day and month
are also accepted, and `d`/digit may be any decimal digit); every failure
carries `ValidationError("Invalid date format. Use DD.MM.YYYY")`; and every
strictly 2-digit-day, 2-digit-month `DD.MM.YYYY` string denoting a real
date parses successfully and reformats back to itself. -/
theorem C4_amended :
    (∀ (raw : List Char) (dt : PyDate), Birthday_value raw = .ok dt ↔
      ∃ p1 p2 p3, pyStrip raw = p1 ++ '.' :: (p2 ++ '.' :: p3) ∧
        dayVal? p1 = some dt.day ∧ monthVal? p2 = some dt.month ∧
        yearVal? p3 = some dt.year ∧
        validYMD dt.year dt.month dt.day = true) ∧
    (∀ (raw : List Char) (e : String), Birthday_value raw = .error e →
      e = dateErrMsg) ∧
    (∀ (s : List Char) (dt : PyDate), specStrictDMY s = some dt →
      Birthday_value s = .ok dt ∧ formatDMY dt = s) := by
  refine ⟨?_, ?_, ?_⟩
  · intro raw dt
    rw [Birthday_value_ok_iff]
    exact strptimeDMY_some_iff
  · intro raw e h
    exact Birthday_value_error h
  · intro s dt h
    exact specStrict_sound h

/-- Witness: the round-trip part of `C4_amended` at a concrete strict
input. -/
theorem C4_amended_witness :
    Birthday_value ("06.01.1990".toList) = .ok ⟨1990, 1, 6⟩ ∧
    formatDMY ⟨1990, 1, 6⟩ = "06.01.1990".toList :=
  C4_amended.2.2 ("06.01.1990".toList) ⟨1990, 1, 6⟩ (by decide)

/-! ### Claim C7 -/

lemma strLtB_irrefl (a : List Char) : strLtB a a = false := by
  induction a with
  | nil => rfl
  | cons c t ih => simp [strLtB, ih]

lemma strLtB_trans {a b c : List Char} (h1 : strLtB a b = true)
    (h2 : strLtB b c = true) : strLtB a c = true := by
  induction a generalizing b c with
  | nil =>
    cases b with
    | nil => simp [strLtB] at h1
    | cons bb bs =>
      cases c with
      | nil => simp [strLtB] at h2
      | cons cc cs => rfl
  | cons aa as ih =>
    cases b with
    | nil => simp [strLtB] at h1
    | cons bb bs =>
      cases c with
      | nil => simp [strLtB] at h2
      | cons cc cs =>
        simp only [strLtB, Bool.or_eq_true, Bool.and_eq_true,
          decide_eq_true_eq] at h1 h2 ⊢
        rcases h1 with h1 | ⟨rfl, h1t⟩
        · rcases h2 with h2 | ⟨rfl, h2t⟩
          · exact Or.inl (lt_trans h1 h2)
          · exact Or.inl h1
        · rcases h2 with h2 | ⟨rfl, h2t⟩
          · exact Or.inl h2
          · exact Or.inr ⟨rfl, ih h1t h2t⟩

lemma strLtB_or (a b : List Char) :
    strLtB a b = true ∨ a = b ∨ strLtB b a = true := by
  induction a generalizing b with
  | nil =>
    cases b with
    | nil => exact Or.inr (Or.inl rfl)
    | cons bb bs => exact Or.inl rfl
  | cons aa as ih =>
    cases b with
    | nil => exact Or.inr (Or.inr rfl)
    | cons bb bs =>
      rcases lt_trichotomy aa bb with h | h | h
      · exact Or.inl (by simp [strLtB, h])
      · subst h
        rcases ih bs with h2 | h2 | h2
        · exact Or.inl (by simp [strLtB, h2])
        · exact Or.inr (Or.inl (by rw [h2]))
        · exact Or.inr (Or.inr (by simp [strLtB, h2]))
      · exact Or.inr (Or.inr (by simp [strLtB, h]))

lemma strLeB_iff (a b : List Char) :
    strLeB a b = true ↔ (strLtB a b = true ∨ a = b) := by
  induction a generalizing b with
  | nil => cases b <;> simp [strLeB, strLtB]
  | cons aa as ih =>
    cases b with
    | nil => simp [strLeB, strLtB]
    | cons bb bs =>
      by_cases haa : aa = bb
      · subst haa
        simp only [strLeB, strLtB, Bool.or_eq_true, Bool.and_eq_true,
          decide_eq_true_eq, lt_self_iff_false, false_or, true_and,
          List.cons.injEq]
        exact ih bs
      · simp [strLeB, strLtB, haa]

lemma strLeB_total (a b : List Char) :
    strLeB a b = true ∨ strLeB b a = true := by
  rcases strLtB_or a b with h | rfl | h
  · exact Or.inl ((strLeB_iff _ _).mpr (Or.inl h))
  · exact Or.inl ((strLeB_iff _ _).mpr (Or.inr rfl))
  · exact Or.inr ((strLeB_iff _ _).mpr (Or.inl h))

lemma strLeB_trans {a b c : List Char} (h1 : strLeB a b = true)
    (h2 : strLeB b c = true) : strLeB a c = true := by
  rcases (strLeB_iff _ _).mp h1 with h1 | rfl
  · rcases (strLeB_iff _ _).mp h2 with h2 | rfl
    · exact (strLeB_iff _ _).mpr (Or.inl (strLtB_trans h1 h2))
    · exact (strLeB_iff _ _).mpr (Or.inl h1)
  · exact h2

lemma entryLe_trans {x y z : Entry} (h1 : entryLe x y) (h2 : entryLe y z) :
    entryLe x z := by
  rcases h1 with h1 | ⟨e1, h1⟩
  · rcases h2 with h2 | ⟨e2, h2⟩
    · exact Or.inl (strLtB_trans h1 h2)
    · exact Or.inl (by rw [← e2]; exact h1)
  · rcases h2 with h2 | ⟨e2, h2⟩
    · exact Or.inl (by rw [e1]; exact h2)
    · exact Or.inr ⟨e1.trans e2, strLeB_trans h1 h2⟩

lemma entryLe_total (x y : Entry) : entryLe x y ∨ entryLe y x := by
  rcases strLtB_or x.congratulation_date y.congratulation_date with h | h | h
  · exact Or.inl (Or.inl h)
  · rcases strLeB_total x.name y.name with hn | hn
    · exact Or.inl (Or.inr ⟨h, hn⟩)
    · exact Or.inr (Or.inr ⟨h.symm, hn⟩)
  · exact Or.inr (Or.inl h)

/-- C7: the sequence returned by `get_upcoming_birthdays` is sorted
ascending by the pair (congratulation date string, name) under
lexicographic comparison; in particular any two entries sharing a
congratulation date appear in alphabetical order of their names. -/
theorem C7 (book : List Record) (today : PyDate) (es : List Entry)
    (hok : get_upcoming_birthdays book today = .ok es) :
    List.Sorted entryLe es ∧
    List.Pairwise (fun x y =>
      x.congratulation_date = y.congratulation_date →
        strLeB x.name y.name = true) es := by
  unfold get_upcoming_birthdays at hok
  cases hcol : collectEntries today (addDays 7 today) book with
  | error msg =>
    rw [hcol] at hok
    exact Except.noConfusion hok
  | ok l =>
    rw [hcol] at hok
    obtain rfl : sortEntries l = es := Except.ok.inj hok
    haveI : IsTrans Entry entryLe := ⟨fun _ _ _ => entryLe_trans⟩
    haveI : IsTotal Entry entryLe := ⟨entryLe_total⟩
    have hs : List.Sorted entryLe (sortEntries l) :=
      List.sorted_insertionSort entryLe l
    refine ⟨hs, List.Pairwise.imp ?_ hs⟩
    intro a b hab heq
    rcases hab with hlt | ⟨-, hn⟩
    · rw [heq, strLtB_irrefl] at hlt
      exact absurd hlt (by simp)
    · exact hn

/-- Witness: `C7` applied at a concrete book with two entries sharing a
congratulation date. -/
theorem C7_witness :
    List.Sorted entryLe [(⟨"Amy".toList, formatISO ⟨2024, 1, 3⟩⟩ : Entry),
      ⟨"Zed".toList, formatISO ⟨2024, 1, 3⟩⟩] ∧
    List.Pairwise (fun x y =>
      x.congratulation_date = y.congratulation_date →
        strLeB x.name y.name = true)
      [(⟨"Amy".toList, formatISO ⟨2024, 1, 3⟩⟩ : Entry),
        ⟨"Zed".toList, formatISO ⟨2024, 1, 3⟩⟩] :=
  C7 [⟨"Zed".toList, [], some ⟨1990, 1, 3⟩⟩,
      ⟨"Amy".toList, [], some ⟨1991, 1, 3⟩⟩] ⟨2024, 1, 1⟩ _ (by decide)

/-! ### Claim C5 -/

/-- C5 counterexample: `Phone.create` accepts the ten Arabic-Indic digits
U+0660..U+0669 (Python's `str.isdigit` is not restricted to ASCII), although
none of them is an ASCII decimal digit, refuting "succeeds if and only if
the whitespace-trimmed input consists of exactly 10 ASCII decimal
digits". -/
theorem C5_counterexample :
    Phone_value ("٠١٢٣٤٥٦٧٨٩".toList) = .ok ("٠١٢٣٤٥٦٧٨٩".toList) ∧
    ("٠١٢٣٤٥٦٧٨٩".toList).all specAsciiDigit = false ∧
    ("٠١٢٣٤٥٦٧٨٩".toList).length = 10 ∧
    pyStrip ("٠١٢٣٤٥٦٧٨٩".toList) = "٠١٢٣٤٥٦٧٨٩".toList := by
  decide

/-- C5 (amended): `PhoneNumber.create(raw)` succeeds iff the
whitespace-trimmed input consists of exactly 10 characters accepted by
Python's `str.isdigit` (Unicode digits, not only ASCII), returning the
trimmed 10-character string; otherwise it fails with
`ValidationError("Phone number must be 10 digits.")`. -/
theorem C5_amended (s : List Char) :
    (((pyStrip s).length = 10 ∧ ∀ c ∈ pyStrip s, pyIsDigitChar c = true) →
      Phone_value s = .ok (pyStrip s)) ∧
    (¬ ((pyStrip s).length = 10 ∧ ∀ c ∈ pyStrip s, pyIsDigitChar c = true) →
      Phone_value s = .error phoneErrMsg) ∧
    ∀ v, Phone_value s = .ok v → v = pyStrip s := by
  have hiff : phoneOk (pyStrip s) = true ↔
      ((pyStrip s).length = 10 ∧ ∀ c ∈ pyStrip s, pyIsDigitChar c = true) := by
    simp only [phoneOk, pyStrIsDigit, Bool.and_eq_true, List.all_eq_true,
      Bool.not_eq_true', decide_eq_true_eq]
    constructor
    · rintro ⟨⟨-, hd⟩, hl⟩
      exact ⟨hl, hd⟩
    · rintro ⟨hl, hd⟩
      refine ⟨⟨?_, hd⟩, hl⟩
      cases hs : pyStrip s with
      | nil => rw [hs] at hl; exact absurd hl (by decide)
      | cons a l => rfl
  refine ⟨?_, ?_, ?_⟩
  · intro h
    exact Phone_value_ok_iff.mpr ⟨hiff.mpr h, rfl⟩
  · intro h
    apply Phone_value_error_iff.mpr
    refine ⟨?_, rfl⟩
    cases hpo : phoneOk (pyStrip s)
    · rfl
    · exact absurd (hiff.mp hpo) h
  · intro v hv
    exact (Phone_value_ok_iff.mp hv).2

/-- Witness: `C5_amended` applied at a concrete input. -/
theorem C5_amended_witness :
    Phone_value (" 0501234567".toList) = .ok ("0501234567".toList) := by
  have h := (C5_amended (" 0501234567".toList)).1 (by decide)
  rw [show pyStrip (" 0501234567".toList) = "0501234567".toList from by decide] at h
  exact h

/-! ### Claim C6 -/

/-- C6: `Record.editPhone(old, new)`: when no stored phone equals `old`, it
returns `false`, raises nothing, and leaves the record unchanged; when `old`
is found but `new` fails validation, the `ValidationError` propagates and
the phone list is exactly as before the call; when `old` is found and `new`
is valid, the first matching phone is replaced in place and `true` is
returned. -/
theorem C6 (r : Record) (old new_ : List Char) :
    ((∀ p ∈ r.phones, p ≠ old) → r.edit_phone old new_ = .ok (r, false)) ∧
    ((∃ p ∈ r.phones, p = old) →
      (∀ e, Phone_value new_ = .error e →
        r.edit_phone old new_ = .error e ∧ r.applyOp (.editPhone old new_) = r) ∧
      (∀ v, Phone_value new_ = .ok v →
        ∃ i, r.phones.findIdx? (fun p => decide (p = old)) = some i ∧
          r.edit_phone old new_ =
            .ok ({ r with phones := r.phones.set i v }, true))) := by
  constructor
  · intro h
    have hn : r.phones.findIdx? (fun p => decide (p = old)) = none :=
      List.findIdx?_eq_none_iff.mpr (fun x hx => by simp [h x hx])
    unfold Record.edit_phone
    rw [hn]
  · rintro ⟨p, hp, rfl⟩
    have hne : r.phones.findIdx? (fun q => decide (q = p)) ≠ none := by
      intro hn
      have := List.findIdx?_eq_none_iff.mp hn p hp
      simp at this
    obtain ⟨i, hi⟩ := Option.ne_none_iff_exists'.mp hne
    constructor
    · intro e he
      have he2 : r.edit_phone p new_ = .error e := by
        unfold Record.edit_phone
        rw [hi, he]
      exact ⟨he2, by simp [Record.applyOp, he2]⟩
    · intro v hv
      exact ⟨i, hi, by unfold Record.edit_phone; rw [hi, hv]⟩

/-- Witness: `C6` applied at a concrete record with an invalid new
number. -/
theorem C6_witness :
    Record.edit_phone ⟨"A".toList, ["0501234567".toList], none⟩
        ("0501234567".toList) ("12345".toList) = .error phoneErrMsg ∧
    Record.applyOp ⟨"A".toList, ["0501234567".toList], none⟩
        (.editPhone ("0501234567".toList) ("12345".toList)) =
      ⟨"A".toList, ["0501234567".toList], none⟩ := by
  have h := (C6 ⟨"A".toList, ["0501234567".toList], none⟩
      ("0501234567".toList) ("12345".toList)).2
      ⟨"0501234567".toList, by decide, rfl⟩
  exact h.1 phoneErrMsg (by decide)

/-! ### Claim C9 -/

lemma applyOp_inv {r : Record} (h : ∀ v ∈ r.phones, phoneOk v = true)
    (op : RecOp) : ∀ v ∈ (r.applyOp op).phones, phoneOk v = true := by
  cases op with
  | addPhone raw =>
    cases hpv : Phone_value raw with
    | error e =>
      intro x hx
      simp only [Record.applyOp, Record.add_phone, hpv] at hx
      exact h x hx
    | ok v =>
      obtain ⟨hok, rfl⟩ := Phone_value_ok_iff.mp hpv
      intro x hx
      simp only [Record.applyOp, Record.add_phone, hpv] at hx
      rcases List.mem_append.mp hx with hx | hx
      · exact h x hx
      · rw [List.mem_singleton.mp hx]
        exact hok
  | removePhone raw =>
    intro x hx
    simp only [Record.applyOp, Record.remove_phone] at hx
    cases hf : r.find_phone raw with
    | none => rw [hf] at hx; exact h x hx
    | some v =>
      rw [hf] at hx
      exact h x (List.erase_subset _ _ hx)
  | editPhone o n =>
    intro x hx
    cases hi : r.phones.findIdx? (fun p => decide (p = o)) with
    | none =>
      have he : r.edit_phone o n = .ok (r, false) := by
        unfold Record.edit_phone
        rw [hi]
      simp only [Record.applyOp, he] at hx
      exact h x hx
    | some i =>
      cases hpv : Phone_value n with
      | error e =>
        have he : r.edit_phone o n = .error e := by
          unfold Record.edit_phone
          rw [hi, hpv]
        simp only [Record.applyOp, he] at hx
        exact h x hx
      | ok v =>
        obtain ⟨hok, rfl⟩ := Phone_value_ok_iff.mp hpv
        have he : r.edit_phone o n =
            .ok ({ r with phones := r.phones.set i (pyStrip n) }, true) := by
          unfold Record.edit_phone
          rw [hi, hpv]
        simp only [Record.applyOp, he] at hx
        rcases List.mem_or_eq_of_mem_set hx with hx | rfl
        · exact h x hx
        · exact hok
  | setBirthday raw =>
    intro x hx
    cases hb : Birthday_value raw with
    | error e =>
      simp only [Record.applyOp, Record.add_birthday, hb] at hx
      exact h x hx
    | ok dt =>
      simp only [Record.applyOp, Record.add_birthday, hb] at hx
      exact h x hx

/-- C9: starting from a fresh record, every sequence of public operations
(`addPhone`, `removePhone`, `editPhone`, `setBirthday`) leaves only phones
that satisfy the validator's 10-digit rule stored in the phone list. -/
theorem C9 (name : List Char) (ops : List RecOp) :
    ∀ v ∈ (ops.foldl Record.applyOp (Record.new name)).phones,
      phoneOk v = true := by
  have gen : ∀ (l : List RecOp) (r : Record),
      (∀ v ∈ r.phones, phoneOk v = true) →
      ∀ v ∈ (l.foldl Record.applyOp r).phones, phoneOk v = true := by
    intro l
    induction l with
    | nil => intro r h; simpa using h
    | cons op t ih => intro r h; exact ih _ (applyOp_inv h op)
  refine gen ops _ ?_
  intro v hv
  simp [Record.new] at hv

/-- Witness: `C9` applied at a concrete operation sequence. -/
theorem C9_witness : phoneOk ("0501234567".toList) = true :=
  C9 ("A".toList) [.addPhone (" 0501234567 ".toList)] ("0501234567".toList)
    (by decide)

/-! ### Claim C10 -/

lemma find?_append_eq (l : List (List Char)) (c : List Char) :
    List.find? (fun x => decide (x = c)) (l ++ [c]) = some c := by
  induction l with
  | nil => simp
  | cons a t ih =>
    by_cases ha : a = c
    · subst ha
      simp
    · rw [List.cons_append, List.find?_cons_of_neg _ (by simpa using ha)]
      exact ih

/-- C10: phones are stored whitespace-trimmed while `find_phone` compares
the raw argument untrimmed: after `addPhone(p)` for a `p` with whitespace
around a valid 10-digit core, `findPhone` succeeds on the trimmed core but
returns none on the raw `p`; for an already-trimmed valid `p`, `addPhone`
then `findPhone` always succeeds. -/
theorem C10 (r : Record) (hr : ∀ v ∈ r.phones, phoneOk v = true)
    (p : List Char) (hp : phoneOk (pyStrip p) = true) (hne : p ≠ pyStrip p) :
    (r.applyOp (.addPhone p)).find_phone (pyStrip p) = some (pyStrip p) ∧
    (r.applyOp (.addPhone p)).find_phone p = none ∧
    (∀ q, phoneOk q = true → pyStrip q = q →
      (r.applyOp (.addPhone q)).find_phone q = some q) := by
  have hadd : ∀ q, phoneOk (pyStrip q) = true →
      (r.applyOp (.addPhone q)).phones = r.phones ++ [pyStrip q] := by
    intro q hq
    have hv : Phone_value q = .ok (pyStrip q) := Phone_value_ok_iff.mpr ⟨hq, rfl⟩
    simp [Record.applyOp, Record.add_phone, hv]
  refine ⟨?_, ?_, ?_⟩
  · unfold Record.find_phone
    rw [hadd p hp]
    exact find?_append_eq _ _
  · unfold Record.find_phone
    rw [hadd p hp]
    apply List.find?_eq_none.mpr
    intro x hx
    simp only [decide_eq_true_eq]
    rcases List.mem_append.mp hx with hx | hx
    · intro hxp
      apply hne
      rw [← hxp]
      exact (phoneOk_strip (hr x hx)).symm
    · rw [List.mem_singleton.mp hx]
      intro hsp
      exact hne hsp.symm
  · intro q hq hqs
    unfold Record.find_phone
    rw [hadd q (by rw [hqs]; exact hq), hqs]
    exact find?_append_eq _ _

/-- Witness: `C10` applied at a concrete record and phone. -/
theorem C10_witness :
    (Record.applyOp (Record.new ("A".toList))
        (.addPhone (" 0501234567".toList))).find_phone ("0501234567".toList) =
      some ("0501234567".toList) ∧
    (Record.applyOp (Record.new ("A".toList))
        (.addPhone (" 0501234567".toList))).find_phone (" 0501234567".toList) =
      none := by
  have h := C10 (Record.new ("A".toList)) (by intro v hv; simp [Record.new] at hv)
    (" 0501234567".toList) (by decide) (by decide)
  have e : pyStrip (" 0501234567".toList) = "0501234567".toList := by decide
  rw [e] at h
  exact ⟨h.1, h.2.1⟩

end AddressBookPy
